import Mathlib

/-!
Shallow embedding of the Nomad-Manager transcoder (src/NomadManager.py).

Modelling conventions:
* A filesystem path is an `NPath`: a directory (list of components), a stem
  and a suffix; `name = stem ++ suffix` matches Python's `Path.name`,
  `Path.stem`, `Path.suffix` accessors, which are the only name operations
  the program performs.
* The filesystem is an association list from paths to byte sizes plus a
  list of known directories.  The SQLite status store is an association
  list from paths to a status and a note (timestamps are not modelled;
  no claim concerns them).
* External effects (the two `stat` samples of the stability check, the
  ffprobe result, HandBrake's exit code and output artifact, the operator's
  answer) are supplied by an `Oracle`, one per path.
* Functions keep the Python names where Lean allows it.
-/

namespace Nomad

/-- Processing status values stored in the `files` table. -/
inductive Status where
  | queued
  | processing
  | done_moved
  | skipped_moved
  | kept_original_moved
  | copied_season
  | skipped_by_user
  | error
deriving DecidableEq

/-- A filesystem path: directory components, stem and suffix
(`Path.stem` / `Path.suffix` in Python). -/
structure NPath where
  dir : List String
  stem : String
  suffix : String
deriving DecidableEq

/-- Python's `Path.name`. -/
def NPath.name (p : NPath) : String := p.stem ++ p.suffix

/-- The filesystem: files with their sizes, and known directories. -/
structure FS where
  files : List (NPath × Nat)
  dirs : List (List String)
deriving DecidableEq

/-- The status store: path to (status, note). -/
def Store := List (NPath × Status × String)

instance : DecidableEq Store := by unfold Store; infer_instance

/-- Run configuration flags (the `ARGS` globals the core consults). -/
structure Config where
  dryRun : Bool
  confirm : Bool
  no_posters : Bool
  posters_only : Bool
deriving DecidableEq

/-- Parsed ffprobe output (`probe_video`'s result dictionary). -/
structure ProbeInfo where
  vcodec : Option String
  width : Nat
  height : Nat
  format_name : Option String
  size : Nat
deriving DecidableEq

/-- External-world inputs for processing one path: the two stability
samples (`none` models `FileNotFoundError`), the probe result (`none`
models probe failure), HandBrake's exit code, the size of the artifact
HandBrake writes (if any), and the operator's confirmation answer. -/
structure Oracle where
  s1 : Option Nat
  s2 : Option Nat
  probe : Option ProbeInfo
  hbRc : Nat
  hbOut : Option Nat
  userYes : Bool

-- ---------- association-list primitives ----------

/-- Look up a key in an association list (first match). -/
def lookupKey {β : Type} : List (NPath × β) → NPath → Option β
  | [], _ => none
  | e :: t, p => if e.1 = p then some e.2 else lookupKey t p

/-- Remove every entry with the given key. -/
def removeKey {β : Type} : List (NPath × β) → NPath → List (NPath × β)
  | [], _ => []
  | e :: t, p => if e.1 = p then removeKey t p else e :: removeKey t p

/-- Upsert: bind the key to the value, dropping older bindings. -/
def setKey {β : Type} (l : List (NPath × β)) (p : NPath) (v : β) : List (NPath × β) :=
  (p, v) :: removeKey l p

-- ---------- filesystem operations ----------

/-- Size of a file, `none` when it does not exist (`Path.stat().st_size`). -/
def FS.statF (fs : FS) (p : NPath) : Option Nat := lookupKey fs.files p

/-- Python's `Path.exists()` for files. -/
def FS.existsFile (fs : FS) (p : NPath) : Bool := (fs.statF p).isSome

/-- Python's `Path.exists()` for directories. -/
def FS.dirExists (fs : FS) (d : List String) : Bool := fs.dirs.contains d

/-- `ensure_dir`: `p.mkdir(parents=True, exist_ok=True)`. -/
def FS.ensureDir (fs : FS) (d : List String) : FS :=
  { fs with dirs := if fs.dirs.contains d then fs.dirs else d :: fs.dirs }

/-- `Path.unlink()`: remove a file. -/
def FS.removeFile (fs : FS) (p : NPath) : FS :=
  { fs with files := removeKey fs.files p }

/-- Write (or overwrite) a file of the given size. -/
def FS.setFile (fs : FS) (p : NPath) (sz : Nat) : FS :=
  { fs with files := setKey fs.files p sz }

/-- `src.rename(dest)` (and the `copy2` + `unlink` fallback, whose success
path has the same effect): the file's bytes move to `dest`.  A missing
source raises in Python; the embedding never reaches that case. -/
def FS.renameFile (fs : FS) (src dest : NPath) : FS :=
  match fs.statF src with
  | some sz => { fs with files := setKey (removeKey fs.files src) dest sz }
  | none => fs

-- ---------- status store ----------

/-- The `mark` upsert (`INSERT ... ON CONFLICT(path) DO UPDATE`). -/
def mark (st : Store) (p : NPath) (s : Status) (note : String) : Store :=
  setKey st p (s, note)

/-- The `status_of` point lookup. -/
def status_of (st : Store) (p : NPath) : Option Status :=
  (lookupKey st p).map (fun e => e.1)

/-- The note stored alongside a path's status. -/
def note_of (st : Store) (p : NPath) : Option String :=
  (lookupKey st p).map (fun e => e.2)

-- ---------- string helpers and constants ----------

/-- Python's substring test (`p in name`). -/
def strContains (s pat : String) : Bool := decide (pat.data <:+: s.data)

/-- Python's `str.lower()` (ASCII as used here), kept kernel-computable. -/
def strLower (s : String) : String := ⟨s.data.map Char.toLower⟩

/-- Python's `name.endswith(p)`. -/
def strEndsWith (s pat : String) : Bool := pat.data.isSuffixOf s.data

def TEMP_SUFFIX : String := ".transcoding"

def VIDEO_EXTS : List String := [".mp4", ".mkv", ".avi", ".m4v", ".ts", ".flv", ".mov"]

def TEMP_PATTERNS : List String := [".part", ".crdownload", ".!qB", ".partial", ".downloading"]

/-- Line 63: a name matches an in-progress-download pattern. -/
def is_temporary_name (name : String) : Bool :=
  TEMP_PATTERNS.any (fun p => strEndsWith name p || strContains name p)

/-- A path has a recognized video extension (`p.suffix.lower() in VIDEO_EXTS`). -/
def isVideoFile (p : NPath) : Bool := VIDEO_EXTS.contains (strLower p.suffix)

-- ---------- probing and stability ----------

/-- Line 99, `file_is_stable`: sample the size, wait, sample again; stable only
when both samples exist, are equal and are strictly positive.  The two
samples are the oracle's `s1`, `s2`. -/
def file_is_stable (s1 s2 : Option Nat) : Bool :=
  match s1 with
  | none => false
  | some a =>
    match s2 with
    | none => false
    | some b => decide (a = b) && decide (0 < a)

/-- Line 123, `should_skip_by_probe`: MP4-family container, H.264/AVC codec,
width at most 854. -/
def should_skip_by_probe : Option ProbeInfo → Bool
  | none => false
  | some info =>
    let fmt := strLower (info.format_name.getD (""))
    let v := strLower (info.vcodec.getD (""))
    let w := info.width
    strContains fmt ("mp4") && (decide (v = "h264") || decide (v = "avc1")) && decide (w ≤ 854)

-- ---------- relocation ----------

/-- The candidate name `f"{base}_{i}{suf}"` tried by `unique_dest`. -/
def candAt (dest : NPath) (i : Nat) : NPath :=
  { dest with stem := dest.stem ++ "_" ++ Nat.repr i }

/-- The `while True` search of `unique_dest`, made total by fuel; the fuel
used always exceeds the number of files, so the fallback is never hit. -/
def unique_dest_loop (fs : FS) (dest : NPath) : Nat → Nat → NPath
  | i, 0 => candAt dest i
  | i, fuel + 1 =>
    if fs.existsFile (candAt dest i) then unique_dest_loop fs dest (i + 1) fuel
    else candAt dest i

/-- Line 55, `unique_dest`: first free name among `dest, dest_1, dest_2, ...`. -/
def unique_dest (fs : FS) (dest : NPath) : NPath :=
  if fs.existsFile dest then unique_dest_loop fs dest 1 (fs.files.length + 1)
  else dest

/-- Line 136, `move_safe`: ensure the directory, pick a collision-free name,
then rename (unless dry-run). -/
def move_safe (dry : Bool) (fs : FS) (src : NPath) (dest_dir : List String) : FS × NPath :=
  let fs1 := fs.ensureDir dest_dir
  let dest := unique_dest fs1 { dir := dest_dir, stem := src.stem, suffix := src.suffix }
  if dry then (fs1, dest)
  else (fs1.renameFile src dest, dest)

/-- Mirror a directory under the output root: `output_root / d.relative_to(downloads_root)`. -/
def reroot (droot oroot d : List String) : List String :=
  oroot ++ d.drop droot.length

/-- The `shutil.copytree(..., dirs_exist_ok=True)` merge: every file under
`srcD` is written (overwriting) at the mirrored spot under `destD`; the
source is untouched. -/
def FS.copyTree (fs : FS) (srcD destD : List String) : FS :=
  { files := fs.files.foldl
      (fun acc e =>
        if srcD.isPrefixOf e.1.dir then
          setKey acc { e.1 with dir := destD ++ e.1.dir.drop srcD.length } e.2
        else acc)
      fs.files,
    dirs := if fs.dirs.contains destD then fs.dirs else destD :: fs.dirs }

/-- Line 153, `copy_tree_safe`: ensure the destination, then merge-copy the
whole subtree (skipped under dry-run). -/
def copy_tree_safe (cfg : Config) (fs : FS) (srcD destD : List String) : FS :=
  let fs1 := fs.ensureDir destD
  if cfg.dryRun then fs1 else fs1.copyTree srcD destD

-- ---------- decision engine (process_movie_file) ----------

/-- Line 241, `ask_confirm`: auto-YES under dry-run, otherwise the operator's
answer. -/
def ask_confirm (cfg : Config) (ans : Bool) : Bool :=
  if cfg.dryRun then true else ans

/-- Line 252's idempotency gate: the statuses on which `process_movie_file`
returns immediately. -/
def isGated : Option Status → Bool
  | some .processing => true
  | some .done_moved => true
  | some .skipped_moved => true
  | some .kept_original_moved => true
  | some .copied_season => true
  | _ => false

/-- The temporary sibling HandBrake writes:
`(output_root / rel).with_suffix(".mp4" + TEMP_SUFFIX)` (line 275). -/
def dest_tmp_of (droot oroot : List String) (src : NPath) : NPath :=
  { dir := reroot droot oroot src.dir, stem := src.stem, suffix := ".mp4" ++ TEMP_SUFFIX }

/-- The final mirrored destination
`(output_root / rel).with_suffix(".mp4")` (line 304). -/
def dest_final_of (droot oroot : List String) (src : NPath) : NPath :=
  { dir := reroot droot oroot src.dir, stem := src.stem, suffix := ".mp4" }

/-- Line 128, `transcode_with_handbrake`: under dry-run return exit code 0
without running; otherwise the external tool runs, possibly writing an
artifact (of size `o.hbOut`) at `dtmp`, and returns exit code `o.hbRc`. -/
def transcode_with_handbrake (cfg : Config) (o : Oracle) (fs : FS) (dtmp : NPath) : FS × Nat :=
  if cfg.dryRun then (fs, 0)
  else
    ( match o.hbOut with
      | some sz => fs.setFile dtmp sz
      | none => fs,
      o.hbRc )

/-- Lines 293-315: the size-comparison step.  `st` already records `queued`;
`osz`/`nsz` are the two `stat` results. -/
def size_phase (cfg : Config) (st : Store) (fs : FS) (src : NPath)
    (droot oroot : List String) (dtmp : NPath) (osz nsz : Nat) : Store × FS :=
  if osz ≤ nsz then
    let fs1 := if cfg.dryRun then fs else fs.removeFile dtmp
    let r := move_safe cfg.dryRun fs1 src (reroot droot oroot src.dir)
    (mark st src .kept_original_moved ("moved original to " ++ r.2.name), r.1)
  else
    let d0 := dest_final_of droot oroot src
    let dfin := if fs.existsFile d0 then unique_dest fs d0 else d0
    let fs1 := if cfg.dryRun then fs else (fs.renameFile dtmp dfin).removeFile src
    (mark st src .done_moved ("moved transcode to " ++ dfin.name), fs1)

/-- Lines 274-315: mark `queued`, transcode into the temporary sibling, then
handle failure (nonzero exit / missing output / stat failure) or fall
through to the size comparison.  The `move_failed` handler of line 314 is
unreachable here because the embedded rename is total. -/
def transcode_phase (cfg : Config) (ora : NPath → Oracle) (st : Store) (fs : FS)
    (src : NPath) (droot oroot : List String) : Store × FS :=
  let st1 := mark st src .queued ("ready")
  let dtmp := dest_tmp_of droot oroot src
  let fs1 := fs.ensureDir dtmp.dir
  let r := transcode_with_handbrake cfg (ora src) fs1 dtmp
  let fs2 := r.1
  let rc := r.2
  if rc ≠ 0 then
    ( mark st1 src .error ("handbrake_exit_" ++ Nat.repr rc),
      if fs2.existsFile dtmp then fs2.removeFile dtmp else fs2 )
  else if !(fs2.existsFile dtmp) then (mark st1 src .error ("no_output"), fs2)
  else
    match fs2.statF src, fs2.statF dtmp with
    | some osz, some nsz => size_phase cfg st1 fs2 src droot oroot dtmp osz nsz
    | _, _ => (mark st1 src .error ("stat_failed"), fs2)

/-- Lines 254-315: everything `process_movie_file` does after the idempotency
gate. -/
def process_movie_body (cfg : Config) (ora : NPath → Oracle) (st : Store) (fs : FS)
    (src : NPath) (droot oroot : List String) : Store × FS :=
  if is_temporary_name src.name then (st, fs)
  else if cfg.confirm && !(ask_confirm cfg (ora src).userYes) then
    (mark st src .skipped_by_user ("user skipped"), fs)
  else if !(file_is_stable (ora src).s1 (ora src).s2) then (st, fs)
  else if should_skip_by_probe (ora src).probe then
    let r := move_safe cfg.dryRun fs src (reroot droot oroot src.dir)
    (mark st src .skipped_moved ("moved to " ++ r.2.name), r.1)
  else transcode_phase cfg ora st fs src droot oroot

/-- Line 250, `process_movie_file`: the per-file decision engine. -/
def process_movie_file (cfg : Config) (ora : NPath → Oracle) (st : Store) (fs : FS)
    (src : NPath) (droot oroot : List String) : Store × FS :=
  if isGated (status_of st src) then (st, fs)
  else process_movie_body cfg ora st fs src droot oroot

-- ---------- directory scanner ----------

/-- Video files directly inside `d` (`p.is_file() and p.suffix.lower() in VIDEO_EXTS`). -/
def filesDirectlyIn (fs : FS) (d : List String) : List NPath :=
  (fs.files.filter (fun e => decide (e.1.dir = d) && isVideoFile e.1)).map (fun e => e.1)

/-- Names of the immediate subdirectories of `top`. -/
def immediateSubdirs (fs : FS) (top : List String) : List String :=
  fs.dirs.filterMap (fun d =>
    if d.take top.length = top then
      match d.drop top.length with
      | [x] => some x
      | _ => none
    else none)

/-- Every video file anywhere under `d` (the season directory's direct files
plus the recursive `rglob` into its subdirectories, line 223-229). -/
def videosUnder (fs : FS) (d : List String) : List NPath :=
  (fs.files.filter (fun e => d.isPrefixOf e.1.dir && isVideoFile e.1)).map (fun e => e.1)

/-- Line 216, `collect_videos_two_depth`: season identifier to videos; the
empty identifier holds the top directory's direct files; empty seasons are
omitted. -/
def collect_videos_two_depth (fs : FS) (top : List String) : List (String × List NPath) :=
  let direct := filesDirectlyIn fs top
  let base := if direct.isEmpty then ([] : List (String × List NPath)) else [("", direct)]
  base ++ (immediateSubdirs fs top).filterMap (fun s =>
    let vids := videosUnder fs (top ++ [s])
    if vids.isEmpty then none else some (s, vids))

-- ---------- season consolidator (process_show_topdir) ----------

/-- Statuses that flag a season for a whole-tree copy (line 329/337). -/
def trigStatus : Option Status → Bool
  | some .skipped_moved => true
  | some .kept_original_moved => true
  | _ => false

/-- Add a season identifier to the needs-copy set (Python `set.add`). -/
def addFlag (l : List String) (s : String) : List String :=
  if l.contains s then l else l ++ [s]

/-- First assoc lookup in the grouping (Python `mapping[""]` presence test). -/
def lookupGroup : List (String × List NPath) → String → Option (List NPath)
  | [], _ => none
  | e :: t, k => if e.1 = k then some e.2 else lookupGroup t k

/-- Process every video of one season group, flagging the season when the
video's status right after processing is `skipped_moved` or
`kept_original_moved` (lines 326-338). -/
def process_group (cfg : Config) (ora : NPath → Oracle) (droot oroot : List String)
    (sk : String) (acc : Store × FS × List String) (vids : List NPath) :
    Store × FS × List String :=
  vids.foldl
    (fun a v =>
      let r := process_movie_file cfg ora a.1 a.2.1 v droot oroot
      let flags := if trigStatus (status_of r.1 v) then addFlag a.2.2 sk else a.2.2
      (r.1, r.2, flags))
    acc

/-- Lines 325-338: the per-file phase of `process_show_topdir` — direct files
first, then each non-empty season group, accumulating the needs-copy set. -/
def show_phase1 (cfg : Config) (ora : NPath → Oracle) (st : Store) (fs : FS)
    (mapping : List (String × List NPath)) (droot oroot : List String) :
    Store × FS × List String :=
  let acc0 :=
    match lookupGroup mapping "" with
    | some vids => process_group cfg ora droot oroot ("") (st, fs, []) vids
    | none => (st, fs, [])
  mapping.foldl
    (fun a e => if e.1 = "" then a else process_group cfg ora droot oroot e.1 a e.2)
    acc0

/-- Render a directory for the note text. -/
def renderDir (d : List String) : String := String.intercalate ("/") d

/-- Line 350-352: stamp every video file found under `srcD` as
`copied_season`, whatever status it held. -/
def stamp_tree (st : Store) (fs : FS) (srcD destD : List String) : Store :=
  fs.files.foldl
    (fun acc e =>
      if srcD.isPrefixOf e.1.dir && isVideoFile e.1 then
        mark acc e.1 .copied_season ("season copied to " ++ renderDir destD)
      else acc)
    st

/-- The source subtree a flagged season identifier denotes (line 341-346). -/
def seasonSrcDir (topdir : List String) (sk : String) : List String :=
  if sk = "" then topdir else topdir ++ [sk]

/-- The mirrored destination of a flagged season (line 341-346). -/
def seasonDestDir (droot oroot topdir : List String) (sk : String) : List String :=
  if sk = "" then reroot droot oroot topdir else reroot droot oroot topdir ++ [sk]

/-- Lines 340-352: copy each flagged season subtree wholesale, then stamp
every video found inside it. -/
def show_copy_loop (cfg : Config) (topdir droot oroot : List String)
    (acc : Store × FS) (needs : List String) : Store × FS :=
  needs.foldl
    (fun (a : Store × FS) sk =>
      let srcD := seasonSrcDir topdir sk
      let destD := seasonDestDir droot oroot topdir sk
      if a.2.dirExists srcD then
        let fs1 := copy_tree_safe cfg a.2 srcD destD
        (stamp_tree a.1 fs1 srcD destD, fs1)
      else a)
    acc

/-- Line 182, `fetch_and_save_show_poster`, success path only as far as the
filesystem is concerned: when the whole TMDb pipeline yields poster bytes
(`poster = some size`), the image is written at `out_root/showName.jpg`
unless dry-run. -/
def fetch_and_save_show_poster (cfg : Config) (poster : Option Nat) (fs : FS)
    (showName : String) (outRoot : List String) : FS :=
  match poster with
  | none => fs
  | some sz =>
    if cfg.dryRun then fs
    else (fs.ensureDir outRoot).setFile { dir := outRoot, stem := showName, suffix := ".jpg" } sz

/-- Line 317, `process_show_topdir`: group the show's videos, run the decision
engine over them, consolidate flagged seasons, then the poster step. -/
def process_show_topdir (cfg : Config) (ora : NPath → Oracle) (poster : Option Nat)
    (st : Store) (fs : FS) (topdir droot oroot : List String) : Store × FS :=
  let mapping := collect_videos_two_depth fs topdir
  if mapping.isEmpty then (st, fs)
  else
    let r := show_phase1 cfg ora st fs mapping droot oroot
    let r2 := show_copy_loop cfg topdir droot oroot (r.1, r.2.1) r.2.2
    if !cfg.no_posters && !cfg.posters_only then
      (r2.1, fetch_and_save_show_poster cfg poster r2.2 (topdir.getLastD ("")) oroot)
    else r2

-- ---------- scan loop (directory branch) ----------

/-- Line 383-386: the stability sample is the first video of the first
non-empty group of the grouping. -/
def firstSample : List (String × List NPath) → Option NPath
  | [] => none
  | e :: t =>
    match e.2 with
    | [] => firstSample t
    | x :: _ => some x

/-- Lines 378-390 of `scan_and_process`: the handling of one top-level
directory entry (after the hidden-name, posters-only and temp-name gates
of lines 367-377): group the videos, check stability of a single sample,
and either skip the whole show for this pass or process it. -/
def scan_entry_dir (cfg : Config) (ora : NPath → Oracle) (poster : Option Nat)
    (st : Store) (fs : FS) (entry droot oroot : List String) : Store × FS :=
  let mapping := collect_videos_two_depth fs entry
  if mapping.isEmpty then (st, fs)
  else
    match firstSample mapping with
    | some smp =>
      if !(file_is_stable (ora smp).s1 (ora smp).s2) then (st, fs)
      else process_show_topdir cfg ora poster st fs entry droot oroot
    | none => process_show_topdir cfg ora poster st fs entry droot oroot

-- ---------- association-list lemmas ----------

theorem lookupKey_setKey_self {β : Type} (l : List (NPath × β)) (p : NPath) (v : β) :
    lookupKey (setKey l p v) p = some v := by
  simp [setKey, lookupKey]

theorem lookupKey_removeKey_ne {β : Type} (l : List (NPath × β)) (p q : NPath) (h : q ≠ p) :
    lookupKey (removeKey l p) q = lookupKey l q := by
  induction l with
  | nil => rfl
  | cons e t ih =>
    by_cases he : e.1 = p
    · simp only [removeKey, if_pos he, lookupKey, ih]
      rw [if_neg]
      intro hq
      exact h (hq ▸ he)
    · by_cases hq : e.1 = q
      · simp only [removeKey, if_neg he, lookupKey, if_pos hq]
      · simp only [removeKey, if_neg he, lookupKey, if_neg hq, ih]

theorem lookupKey_setKey_ne {β : Type} (l : List (NPath × β)) (p q : NPath) (v : β)
    (h : q ≠ p) : lookupKey (setKey l p v) q = lookupKey l q := by
  simp only [setKey, lookupKey]
  rw [if_neg, lookupKey_removeKey_ne l p q h]
  intro hq
  exact h hq.symm

theorem status_of_mark_self (st : Store) (p : NPath) (s : Status) (n : String) :
    status_of (mark st p s n) p = some s := by
  simp [status_of, mark, lookupKey_setKey_self]

theorem status_of_mark_ne (st : Store) (p q : NPath) (s : Status) (n : String) (h : q ≠ p) :
    status_of (mark st p s n) q = status_of st q := by
  simp [status_of, mark, lookupKey_setKey_ne _ _ _ _ h]

-- ---------- C6: the stability detector ----------

/-- C6: `file_is_stable` returns stable iff both size samples exist (no
sample hit `FileNotFoundError`), the two samples are equal, and the size is
strictly positive; in particular a vanished file or a zero-length file is
never stable. -/
theorem C6_stability_iff (s1 s2 : Option Nat) :
    file_is_stable s1 s2 = true ↔ ∃ n, s1 = some n ∧ s2 = some n ∧ 0 < n := by
  cases s1 with
  | none => simp [file_is_stable]
  | some a =>
    cases s2 with
    | none => simp [file_is_stable]
    | some b =>
      simp only [file_is_stable, Bool.and_eq_true, decide_eq_true_eq]
      constructor
      · rintro ⟨rfl, hpos⟩
        exact ⟨a, rfl, rfl, hpos⟩
      · rintro ⟨n, hn1, hn2, hpos⟩
        cases hn1
        cases hn2
        exact ⟨rfl, hpos⟩

-- ---------- C3: the probe skip policy ----------

/-- Concrete example inputs shared by the probe-policy and engine theorems. -/
def exCfg : Config := { dryRun := false, confirm := false, no_posters := true, posters_only := false }

def exSrc : NPath := { dir := ["dl"], stem := "Movie", suffix := ".mp4" }

def exFS : FS := { files := [(exSrc, 500)], dirs := [["dl"]] }

/-- Probe result of the claim's first instance: mp4 / h264 / width 720. -/
def exProbe720 : ProbeInfo :=
  { vcodec := some ("h264"), width := 720, height := 400, format_name := some ("mp4"), size := 500 }

/-- The same container and codec at width 1920. -/
def exProbe1920 : ProbeInfo :=
  { vcodec := some ("h264"), width := 1920, height := 800, format_name := some ("mp4"), size := 500 }

def exOra720 : NPath → Oracle := fun _ =>
  { s1 := some 500, s2 := some 500, probe := some exProbe720, hbRc := 0, hbOut := some 300,
    userYes := true }

def exOra1920 : NPath → Oracle := fun _ =>
  { s1 := some 500, s2 := some 500, probe := some exProbe1920, hbRc := 0, hbOut := some 300,
    userYes := true }

/-- C3: the skip predicate holds iff the container is an MP4 variant, the
codec is H.264/AVC ("h264" or "avc1") and the width is at most 854; the
probe result (mp4, h264, 720) makes the engine move the original unmodified
and record `skipped_moved`; width 1920 with the same codec and container
proceeds to transcode (here ending `done_moved`); an unknown probe result
(`none`) never matches. -/
theorem C3_skip_policy :
    (∀ info : ProbeInfo,
        should_skip_by_probe (some info) = true ↔
          (strContains (strLower (info.format_name.getD (""))) ("mp4") = true ∧
            (strLower (info.vcodec.getD ("")) = "h264" ∨ strLower (info.vcodec.getD ("")) = "avc1") ∧
            info.width ≤ 854)) ∧
    should_skip_by_probe none = false ∧
    should_skip_by_probe (some exProbe720) = true ∧
    (∀ c f : Option String, ∀ h s : Nat,
        should_skip_by_probe
          (some { vcodec := c, width := 1920, height := h, format_name := f, size := s }) = false) ∧
    (process_movie_file exCfg exOra720 [] exFS exSrc ["dl"] ["out"]).1 =
      [(exSrc, Status.skipped_moved, "moved to Movie.mp4")] ∧
    (process_movie_file exCfg exOra720 [] exFS exSrc ["dl"] ["out"]).2.statF
      { dir := ["out"], stem := "Movie", suffix := ".mp4" } = some 500 ∧
    (process_movie_file exCfg exOra720 [] exFS exSrc ["dl"] ["out"]).2.statF exSrc = none ∧
    status_of (process_movie_file exCfg exOra1920 [] exFS exSrc ["dl"] ["out"]).1 exSrc =
      some Status.done_moved := by
  refine ⟨?_, by decide, by decide, ?_, by decide, by decide, by decide, by decide⟩
  · intro info
    simp only [should_skip_by_probe, Bool.and_eq_true, Bool.or_eq_true, decide_eq_true_eq]
    tauto
  · intro c f h s
    simp [should_skip_by_probe]

-- ---------- C1: the idempotency gate ----------

/-- A store whose only record is `skipped_by_user` for the example file. -/
def exUserStore : Store := [(exSrc, Status.skipped_by_user, "user skipped")]

/-- C1 counterexample: a path whose status is `skipped_by_user` is NOT
gated — invoking the engine on it is not a no-op: the file is moved again
and its status is overwritten (here to `skipped_moved`). -/
theorem C1_skipped_by_user_reprocessed :
    status_of exUserStore exSrc = some Status.skipped_by_user ∧
    process_movie_file exCfg exOra720 exUserStore exFS exSrc ["dl"] ["out"] ≠
      (exUserStore, exFS) ∧
    status_of (process_movie_file exCfg exOra720 exUserStore exFS exSrc ["dl"] ["out"]).1 exSrc =
      some Status.skipped_moved ∧
    (process_movie_file exCfg exOra720 exUserStore exFS exSrc ["dl"] ["out"]).2.statF exSrc =
      none := by decide

/-- C1 amended: the statuses the line-252 gate stops are exactly
`processing, done_moved, skipped_moved, kept_original_moved, copied_season`
(`skipped_by_user` is NOT among them and is re-processed); on any gated
status the engine is a no-op — no filesystem mutation, no status write —
and a path whose status is `error` passes the gate and is re-processed. -/
theorem C1_gate (cfg : Config) (ora : NPath → Oracle) (st : Store) (fs : FS)
    (src : NPath) (droot oroot : List String) :
    (∀ s : Status,
        s ∈ [Status.processing, Status.done_moved, Status.skipped_moved,
             Status.kept_original_moved, Status.copied_season] →
        status_of st src = some s →
        process_movie_file cfg ora st fs src droot oroot = (st, fs)) ∧
    (status_of st src = some Status.error →
        process_movie_file cfg ora st fs src droot oroot =
          process_movie_body cfg ora st fs src droot oroot) ∧
    (status_of st src = some Status.skipped_by_user →
        process_movie_file cfg ora st fs src droot oroot =
          process_movie_body cfg ora st fs src droot oroot) := by
  refine ⟨?_, ?_, ?_⟩
  · intro s hs hstat
    have hg : isGated (status_of st src) = true := by
      rw [hstat]
      fin_cases hs <;> rfl
    simp [process_movie_file, hg]
  · intro hstat
    have hg : isGated (status_of st src) = false := by rw [hstat]; rfl
    simp [process_movie_file, hg]
  · intro hstat
    have hg : isGated (status_of st src) = false := by rw [hstat]; rfl
    simp [process_movie_file, hg]

/-- Witness for the gate theorem at a concrete gated input. -/
theorem C1_gate_witness :
    status_of [(exSrc, Status.done_moved, "x")] exSrc = some Status.done_moved ∧
    process_movie_file exCfg exOra720 [(exSrc, Status.done_moved, "x")] exFS exSrc
      ["dl"] ["out"] = ([(exSrc, Status.done_moved, "x")], exFS) :=
  ⟨by decide,
    (C1_gate exCfg exOra720 [(exSrc, Status.done_moved, "x")] exFS exSrc ["dl"] ["out"]).1
      Status.done_moved (by decide) (by decide)⟩

-- ---------- C8: the stability gate writes nothing ----------

/-- C8: a file that reaches the stability gate (not gated, not a temporary
name, confirmation passed) and is judged unstable is dropped with no status
write and no filesystem change, so the next pass sees it afresh. -/
theorem C8_unstable_no_write (cfg : Config) (ora : NPath → Oracle) (st : Store) (fs : FS)
    (src : NPath) (droot oroot : List String)
    (hgate : isGated (status_of st src) = false)
    (htmp : is_temporary_name src.name = false)
    (hconf : (cfg.confirm && !(ask_confirm cfg (ora src).userYes)) = false)
    (hstab : file_is_stable (ora src).s1 (ora src).s2 = false) :
    process_movie_file cfg ora st fs src droot oroot = (st, fs) := by
  simp [process_movie_file, process_movie_body, hgate, htmp, hconf, hstab]

/-- A growing file: the two samples differ. -/
def exOraGrowing : NPath → Oracle := fun _ =>
  { s1 := some 100, s2 := some 200, probe := some exProbe720, hbRc := 0, hbOut := some 300,
    userYes := true }

/-- Witness for the stability-gate theorem on a concrete growing file. -/
theorem C8_unstable_no_write_witness :
    process_movie_file exCfg exOraGrowing [] exFS exSrc ["dl"] ["out"] = ([], exFS) :=
  C8_unstable_no_write exCfg exOraGrowing [] exFS exSrc ["dl"] ["out"]
    (by decide) (by decide) (by decide) (by decide)

-- ---------- C9: dry-run ----------

/-- The example configuration with dry-run set. -/
def exDryCfg : Config := { dryRun := true, confirm := false, no_posters := true, posters_only := false }

/-- C9 counterexample: with dry-run set, the Status Store IS mutated — the
skip path still writes `skipped_moved` (file moves are suppressed). -/
theorem C9_dry_run_writes_store :
    exDryCfg.dryRun = true ∧
    (process_movie_file exDryCfg exOra720 [] exFS exSrc ["dl"] ["out"]).1 ≠ ([] : Store) ∧
    status_of (process_movie_file exDryCfg exOra720 [] exFS exSrc ["dl"] ["out"]).1 exSrc =
      some Status.skipped_moved ∧
    (process_movie_file exDryCfg exOra720 [] exFS exSrc ["dl"] ["out"]).2.files =
      exFS.files := by decide

theorem files_ensureDir (fs : FS) (d : List String) : (fs.ensureDir d).files = fs.files := rfl

theorem files_move_safe_dry (fs : FS) (src : NPath) (d : List String) :
    ((move_safe true fs src d).1).files = fs.files := by
  simp [move_safe, files_ensureDir]

theorem files_size_phase_dry (cfg : Config) (st : Store) (fs : FS) (src : NPath)
    (droot oroot : List String) (dtmp : NPath) (osz nsz : Nat) (hdry : cfg.dryRun = true) :
    ((size_phase cfg st fs src droot oroot dtmp osz nsz).2).files = fs.files := by
  unfold size_phase
  split
  · simp only [hdry, ite_true]
    exact files_move_safe_dry fs src _
  · simp only [hdry, ite_true]

theorem files_transcode_phase_dry (cfg : Config) (ora : NPath → Oracle) (st : Store) (fs : FS)
    (src : NPath) (droot oroot : List String) (hdry : cfg.dryRun = true) :
    ((transcode_phase cfg ora st fs src droot oroot).2).files = fs.files := by
  unfold transcode_phase transcode_with_handbrake
  simp only [hdry, ite_true]
  split
  · next h => exact absurd rfl h
  · split
    · exact files_ensureDir fs _
    · split
      · exact files_size_phase_dry cfg _ _ src droot oroot _ _ _ hdry
      · exact files_ensureDir fs _

theorem files_pm_dry (cfg : Config) (ora : NPath → Oracle) (st : Store) (fs : FS)
    (src : NPath) (droot oroot : List String) (hdry : cfg.dryRun = true) :
    (process_movie_file cfg ora st fs src droot oroot).2.files = fs.files := by
  unfold process_movie_file process_movie_body
  split
  · rfl
  · split
    · rfl
    · split
      · rfl
      · split
        · rfl
        · split
          · simp only [hdry]
            exact files_move_safe_dry fs src _
          · exact files_transcode_phase_dry cfg ora _ fs src droot oroot hdry

theorem files_process_group_dry (cfg : Config) (ora : NPath → Oracle)
    (droot oroot : List String) (sk : String) (vids : List NPath) (hdry : cfg.dryRun = true) :
    ∀ acc : Store × FS × List String,
      ((process_group cfg ora droot oroot sk acc vids).2.1).files = acc.2.1.files := by
  induction vids with
  | nil => intro acc; rfl
  | cons v t ih =>
    intro acc
    unfold process_group
    simp only [List.foldl_cons]
    unfold process_group at ih
    rw [ih]
    exact files_pm_dry cfg ora acc.1 acc.2.1 v droot oroot hdry

theorem files_phase1_dry (cfg : Config) (ora : NPath → Oracle) (st : Store) (fs : FS)
    (mapping : List (String × List NPath)) (droot oroot : List String)
    (hdry : cfg.dryRun = true) :
    ((show_phase1 cfg ora st fs mapping droot oroot).2.1).files = fs.files := by
  unfold show_phase1
  have step :
      ∀ (l : List (String × List NPath)) (acc : Store × FS × List String),
        ((l.foldl
            (fun a e => if e.1 = "" then a else process_group cfg ora droot oroot e.1 a e.2)
            acc).2.1).files = acc.2.1.files := by
    intro l
    induction l with
    | nil => intro acc; rfl
    | cons e t ih =>
      intro acc
      simp only [List.foldl_cons]
      rw [ih]
      by_cases he : e.1 = "" <;> simp only [he, if_true, if_false, ite_true, ite_false]
      exact files_process_group_dry cfg ora droot oroot e.1 e.2 hdry acc
  cases hlk : lookupGroup mapping "" with
  | none => simp only [hlk]; exact step mapping _
  | some vids =>
    simp only [hlk]
    rw [step mapping _]
    exact files_process_group_dry cfg ora droot oroot _ vids hdry _

theorem files_copy_tree_safe_dry (cfg : Config) (fs : FS) (srcD destD : List String)
    (hdry : cfg.dryRun = true) : (copy_tree_safe cfg fs srcD destD).files = fs.files := by
  unfold copy_tree_safe
  simp only [hdry, ite_true]
  exact files_ensureDir fs destD

theorem files_copy_loop_dry (cfg : Config) (topdir droot oroot : List String)
    (needs : List String) (hdry : cfg.dryRun = true) :
    ∀ acc : Store × FS,
      ((show_copy_loop cfg topdir droot oroot acc needs).2).files = acc.2.files := by
  induction needs with
  | nil => intro acc; rfl
  | cons sk t ih =>
    intro acc
    unfold show_copy_loop
    simp only [List.foldl_cons]
    unfold show_copy_loop at ih
    rw [ih]
    by_cases hex : acc.2.dirExists (seasonSrcDir topdir sk) = true
    · simp only [hex, if_true, ite_true]
      exact files_copy_tree_safe_dry cfg acc.2 _ _ hdry
    · simp [hex]

theorem files_poster_dry (cfg : Config) (poster : Option Nat) (fs : FS) (nm : String)
    (outRoot : List String) (hdry : cfg.dryRun = true) :
    (fetch_and_save_show_poster cfg poster fs nm outRoot).files = fs.files := by
  unfold fetch_and_save_show_poster
  cases poster with
  | none => rfl
  | some sz => simp only [hdry, ite_true]

/-- C9 amended: under dry-run no file is created, moved, copied or deleted
(the transcoder writes nothing, relocations and tree copies are suppressed)
and every operator confirmation auto-accepts; but the Status Store is still
written to (see the counterexample) and destination directories are still
created. -/
theorem C9_dry_run_no_file_mutation (cfg : Config) (ora : NPath → Oracle) (poster : Option Nat)
    (st : Store) (fs : FS) (src : NPath) (topdir droot oroot : List String)
    (hdry : cfg.dryRun = true) :
    (process_movie_file cfg ora st fs src droot oroot).2.files = fs.files ∧
    (process_show_topdir cfg ora poster st fs topdir droot oroot).2.files = fs.files ∧
    (∀ b : Bool, ask_confirm cfg b = true) := by
  refine ⟨files_pm_dry cfg ora st fs src droot oroot hdry, ?_, ?_⟩
  · unfold process_show_topdir
    cases hm : (collect_videos_two_depth fs topdir).isEmpty with
    | true => simp only [hm, ite_true]
    | false =>
      simp only [hm, Bool.false_eq_true, if_false, ite_false]
      by_cases hp : (!cfg.no_posters && !cfg.posters_only) = true
      · simp only [hp, if_true, ite_true]
        rw [files_poster_dry cfg poster _ _ _ hdry]
        rw [files_copy_loop_dry cfg topdir droot oroot _ hdry]
        exact files_phase1_dry cfg ora st fs _ droot oroot hdry
      · simp only [hp, Bool.false_eq_true, if_false, ite_false]
        rw [files_copy_loop_dry cfg topdir droot oroot _ hdry]
        exact files_phase1_dry cfg ora st fs _ droot oroot hdry
  · intro b
    unfold ask_confirm
    simp [hdry]

/-- Witness for the dry-run theorem at a concrete dry-run input. -/
theorem C9_dry_run_no_file_mutation_witness :
    (process_movie_file exDryCfg exOra720 [] exFS exSrc ["dl"] ["out"]).2.files = exFS.files ∧
    (process_show_topdir exDryCfg exOra720 none [] exFS ["dl"] ["dl"] ["out"]).2.files =
      exFS.files ∧
    (∀ b : Bool, ask_confirm exDryCfg b = true) :=
  C9_dry_run_no_file_mutation exDryCfg exOra720 none [] exFS exSrc ["dl"] ["dl"] ["out"]
    (by decide)

-- ---------- filesystem lemmas ----------

theorem lookupKey_removeKey_self {β : Type} (l : List (NPath × β)) (p : NPath) :
    lookupKey (removeKey l p) p = none := by
  induction l with
  | nil => rfl
  | cons e t ih =>
    by_cases he : e.1 = p
    · simp only [removeKey, if_pos he, ih]
    · simp only [removeKey, if_neg he, lookupKey, if_neg he, ih]

theorem statF_ensureDir (fs : FS) (d : List String) (p : NPath) :
    (fs.ensureDir d).statF p = fs.statF p := rfl

theorem statF_setFile_self (fs : FS) (p : NPath) (sz : Nat) :
    (fs.setFile p sz).statF p = some sz := by
  simp [FS.setFile, FS.statF, lookupKey_setKey_self]

theorem statF_setFile_ne (fs : FS) (p q : NPath) (sz : Nat) (h : q ≠ p) :
    (fs.setFile p sz).statF q = fs.statF q := by
  simp [FS.setFile, FS.statF, lookupKey_setKey_ne _ _ _ _ h]

theorem statF_removeFile_self (fs : FS) (p : NPath) :
    (fs.removeFile p).statF p = none := by
  simp [FS.removeFile, FS.statF, lookupKey_removeKey_self]

theorem statF_removeFile_ne (fs : FS) (p q : NPath) (h : q ≠ p) :
    (fs.removeFile p).statF q = fs.statF q := by
  simp [FS.removeFile, FS.statF, lookupKey_removeKey_ne _ _ _ h]

theorem statF_renameFile_dest (fs : FS) (src dest : NPath) (sz : Nat)
    (h : fs.statF src = some sz) : (fs.renameFile src dest).statF dest = some sz := by
  have h' : lookupKey fs.files src = some sz := h
  simp [FS.renameFile, FS.statF, h', lookupKey_setKey_self]

theorem statF_renameFile_src (fs : FS) (src dest : NPath) (hne : src ≠ dest)
    (h : (fs.statF src).isSome = true) : (fs.renameFile src dest).statF src = none := by
  cases hs : fs.statF src with
  | none => rw [hs] at h; simp at h
  | some sz =>
    have h' : lookupKey fs.files src = some sz := hs
    simp only [FS.renameFile, FS.statF, h']
    rw [lookupKey_setKey_ne _ _ _ _ hne, lookupKey_removeKey_self]

theorem statF_renameFile_other (fs : FS) (src dest q : NPath) (h1 : q ≠ src) (h2 : q ≠ dest) :
    (fs.renameFile src dest).statF q = fs.statF q := by
  cases hs : fs.statF src with
  | none =>
    have h' : lookupKey fs.files src = none := hs
    simp [FS.renameFile, FS.statF, h']
  | some sz =>
    have h' : lookupKey fs.files src = some sz := hs
    simp only [FS.renameFile, FS.statF, h']
    rw [lookupKey_setKey_ne _ _ _ _ h2, lookupKey_removeKey_ne _ _ _ h1]

theorem note_of_mark_self (st : Store) (p : NPath) (s : Status) (n : String) :
    note_of (mark st p s n) p = some n := by
  simp [note_of, mark, lookupKey_setKey_self]

-- ---------- unique_dest / move_safe shape lemmas ----------

theorem unique_dest_loop_dir (fs : FS) (dest : NPath) (fuel : Nat) :
    ∀ i, (unique_dest_loop fs dest i fuel).dir = dest.dir := by
  induction fuel with
  | zero => intro i; rfl
  | succ fuel ih =>
    intro i
    unfold unique_dest_loop
    split
    · exact ih (i + 1)
    · rfl

theorem unique_dest_loop_suffix (fs : FS) (dest : NPath) (fuel : Nat) :
    ∀ i, (unique_dest_loop fs dest i fuel).suffix = dest.suffix := by
  induction fuel with
  | zero => intro i; rfl
  | succ fuel ih =>
    intro i
    unfold unique_dest_loop
    split
    · exact ih (i + 1)
    · rfl

theorem unique_dest_dir (fs : FS) (dest : NPath) : (unique_dest fs dest).dir = dest.dir := by
  unfold unique_dest
  split
  · exact unique_dest_loop_dir fs dest _ 1
  · rfl

theorem unique_dest_suffix (fs : FS) (dest : NPath) :
    (unique_dest fs dest).suffix = dest.suffix := by
  unfold unique_dest
  split
  · exact unique_dest_loop_suffix fs dest _ 1
  · rfl

theorem move_safe_dest_dir (d : Bool) (fs : FS) (src : NPath) (dd : List String) :
    ((move_safe d fs src dd).2).dir = dd := by
  unfold move_safe
  split
  · exact unique_dest_dir _ _
  · exact unique_dest_dir _ _

theorem move_safe_dest_suffix (d : Bool) (fs : FS) (src : NPath) (dd : List String) :
    ((move_safe d fs src dd).2).suffix = src.suffix := by
  unfold move_safe
  split
  · exact unique_dest_suffix _ _
  · exact unique_dest_suffix _ _

/-- A path with a recognized video extension can never coincide with the
temporary transcode sibling: the latter's suffix is ".mp4.transcoding". -/
theorem video_ne_dest_tmp (src : NPath) (droot oroot : List String)
    (hvid : isVideoFile src = true) : src ≠ dest_tmp_of droot oroot src := by
  intro heq
  have hs : src.suffix = ".mp4" ++ TEMP_SUFFIX := congrArg NPath.suffix heq
  unfold isVideoFile at hvid
  rw [hs] at hvid
  exact absurd hvid (by decide)

/-- Reaching the transcode step: with all earlier gates passed the engine is
exactly the transcode phase. -/
theorem pm_reach_transcode (cfg : Config) (ora : NPath → Oracle) (st : Store) (fs : FS)
    (src : NPath) (droot oroot : List String)
    (hgate : isGated (status_of st src) = false)
    (htmp : is_temporary_name src.name = false)
    (hconf : (cfg.confirm && !(ask_confirm cfg (ora src).userYes)) = false)
    (hstab : file_is_stable (ora src).s1 (ora src).s2 = true)
    (hskip : should_skip_by_probe (ora src).probe = false) :
    process_movie_file cfg ora st fs src droot oroot =
      transcode_phase cfg ora st fs src droot oroot := by
  simp [process_movie_file, process_movie_body, hgate, htmp, hconf, hstab, hskip]

-- ---------- C7: transcode failure handling ----------

/-- C7: when the transcode step fails — nonzero exit code, or exit 0 with no
output artifact — the engine records `error` with a note carrying the exit
code or "no_output", leaves no temporary artifact behind, and does not touch
the original source file. -/
theorem C7_transcode_failure (cfg : Config) (ora : NPath → Oracle) (st : Store) (fs : FS)
    (src : NPath) (droot oroot : List String)
    (hgate : isGated (status_of st src) = false)
    (htmp : is_temporary_name src.name = false)
    (hconf : (cfg.confirm && !(ask_confirm cfg (ora src).userYes)) = false)
    (hstab : file_is_stable (ora src).s1 (ora src).s2 = true)
    (hskip : should_skip_by_probe (ora src).probe = false)
    (hdry : cfg.dryRun = false)
    (hvid : isVideoFile src = true) :
    ((ora src).hbRc ≠ 0 →
      status_of (process_movie_file cfg ora st fs src droot oroot).1 src = some Status.error ∧
      note_of (process_movie_file cfg ora st fs src droot oroot).1 src =
        some ("handbrake_exit_" ++ Nat.repr (ora src).hbRc) ∧
      (process_movie_file cfg ora st fs src droot oroot).2.existsFile
        (dest_tmp_of droot oroot src) = false ∧
      (process_movie_file cfg ora st fs src droot oroot).2.statF src = fs.statF src) ∧
    ((ora src).hbRc = 0 → (ora src).hbOut = none →
      fs.existsFile (dest_tmp_of droot oroot src) = false →
      status_of (process_movie_file cfg ora st fs src droot oroot).1 src = some Status.error ∧
      note_of (process_movie_file cfg ora st fs src droot oroot).1 src = some ("no_output") ∧
      (process_movie_file cfg ora st fs src droot oroot).2.existsFile
        (dest_tmp_of droot oroot src) = false ∧
      (process_movie_file cfg ora st fs src droot oroot).2.statF src = fs.statF src) := by
  rw [pm_reach_transcode cfg ora st fs src droot oroot hgate htmp hconf hstab hskip]
  have hne : src ≠ dest_tmp_of droot oroot src := video_ne_dest_tmp src droot oroot hvid
  unfold transcode_phase transcode_with_handbrake
  simp only [hdry, Bool.false_eq_true, if_false, ite_false]
  constructor
  · intro hrc
    simp only [if_pos hrc]
    refine ⟨status_of_mark_self _ _ _ _, note_of_mark_self _ _ _ _, ?_, ?_⟩
    · split
      · simp [FS.existsFile, statF_removeFile_self]
      · next h => simp only [Bool.not_eq_true] at h; exact h
    · cases hout : (ora src).hbOut with
      | none =>
        simp only [hout]
        split
        · rw [statF_removeFile_ne _ _ _ hne]; rfl
        · rfl
      | some sz =>
        simp only [hout]
        split
        · rw [statF_removeFile_ne _ _ _ hne, statF_setFile_ne _ _ _ _ hne]; rfl
        · rw [statF_setFile_ne _ _ _ _ hne]; rfl
  · intro hrc hout hex
    simp only [hrc, hout, ne_eq, not_true_eq_false, if_false, ite_false]
    have hex1 : (fs.ensureDir (dest_tmp_of droot oroot src).dir).existsFile
        (dest_tmp_of droot oroot src) = false := hex
    simp only [hex1, Bool.not_false, if_true, ite_true]
    exact ⟨status_of_mark_self _ _ _ _, note_of_mark_self _ _ _ _, trivial, rfl⟩

/-- Oracle for a failing transcode (exit code 9). -/
def exOraFail : NPath → Oracle := fun _ =>
  { s1 := some 500, s2 := some 500, probe := none, hbRc := 9, hbOut := none, userYes := true }

/-- Oracle for a transcode that exits 0 without writing output. -/
def exOraNoOut : NPath → Oracle := fun _ =>
  { s1 := some 500, s2 := some 500, probe := none, hbRc := 0, hbOut := none, userYes := true }

/-- Witness for the transcode-failure theorem: both failure shapes at
concrete inputs. -/
theorem C7_transcode_failure_witness :
    (status_of (process_movie_file exCfg exOraFail [] exFS exSrc ["dl"] ["out"]).1 exSrc =
        some Status.error ∧
      note_of (process_movie_file exCfg exOraFail [] exFS exSrc ["dl"] ["out"]).1 exSrc =
        some ("handbrake_exit_" ++ Nat.repr 9) ∧
      (process_movie_file exCfg exOraFail [] exFS exSrc ["dl"] ["out"]).2.existsFile
        (dest_tmp_of ["dl"] ["out"] exSrc) = false ∧
      (process_movie_file exCfg exOraFail [] exFS exSrc ["dl"] ["out"]).2.statF exSrc =
        exFS.statF exSrc) ∧
    (status_of (process_movie_file exCfg exOraNoOut [] exFS exSrc ["dl"] ["out"]).1 exSrc =
        some Status.error ∧
      note_of (process_movie_file exCfg exOraNoOut [] exFS exSrc ["dl"] ["out"]).1 exSrc =
        some ("no_output") ∧
      (process_movie_file exCfg exOraNoOut [] exFS exSrc ["dl"] ["out"]).2.existsFile
        (dest_tmp_of ["dl"] ["out"] exSrc) = false ∧
      (process_movie_file exCfg exOraNoOut [] exFS exSrc ["dl"] ["out"]).2.statF exSrc =
        exFS.statF exSrc) :=
  ⟨(C7_transcode_failure exCfg exOraFail [] exFS exSrc ["dl"] ["out"] (by decide) (by decide)
      (by decide) (by decide) (by decide) (by decide) (by decide)).1 (by decide),
    (C7_transcode_failure exCfg exOraNoOut [] exFS exSrc ["dl"] ["out"] (by decide) (by decide)
      (by decide) (by decide) (by decide) (by decide) (by decide)).2 (by decide) (by decide)
      (by decide)⟩

-- ---------- C2: the size comparison ----------

/-- A video path's suffix is never the reserved temporary suffix. -/
theorem video_suffix_ne_tmp (src : NPath) (hvid : isVideoFile src = true) :
    src.suffix ≠ ".mp4" ++ TEMP_SUFFIX := by
  intro h
  unfold isVideoFile at hvid
  rw [h] at hvid
  exact absurd hvid (by decide)

/-- The effect of a real (non-dry) `move_safe`, written out. -/
theorem move_safe_false_eq (fs : FS) (src : NPath) (dd : List String) :
    move_safe false fs src dd =
      ((fs.ensureDir dd).renameFile src
          (unique_dest (fs.ensureDir dd) { dir := dd, stem := src.stem, suffix := src.suffix }),
        unique_dest (fs.ensureDir dd) { dir := dd, stem := src.stem, suffix := src.suffix }) := by
  unfold move_safe
  simp

/-- C2: at the size-comparison step, if the original's size is less than or
equal to the artifact's, the artifact is deleted, the original is moved to
the mirrored destination (keeping its own suffix) and the status becomes
`kept_original_moved`; if the artifact is strictly smaller it is renamed to
the final mirrored ".mp4" destination, the original source is deleted, and
the status becomes `done_moved`. -/
theorem C2_size_comparison (cfg : Config) (ora : NPath → Oracle) (st : Store) (fs : FS)
    (src : NPath) (droot oroot : List String) (osz nsz : Nat)
    (hgate : isGated (status_of st src) = false)
    (htmp : is_temporary_name src.name = false)
    (hconf : (cfg.confirm && !(ask_confirm cfg (ora src).userYes)) = false)
    (hstab : file_is_stable (ora src).s1 (ora src).s2 = true)
    (hskip : should_skip_by_probe (ora src).probe = false)
    (hdry : cfg.dryRun = false)
    (hvid : isVideoFile src = true)
    (hrc : (ora src).hbRc = 0)
    (hout : (ora src).hbOut = some nsz)
    (hosz : fs.statF src = some osz)
    (hdd : src.dir ≠ reroot droot oroot src.dir) :
    (osz ≤ nsz →
      status_of (process_movie_file cfg ora st fs src droot oroot).1 src =
        some Status.kept_original_moved ∧
      (process_movie_file cfg ora st fs src droot oroot).2.existsFile
        (dest_tmp_of droot oroot src) = false ∧
      (process_movie_file cfg ora st fs src droot oroot).2.statF src = none ∧
      ∃ dest : NPath, dest.dir = reroot droot oroot src.dir ∧ dest.suffix = src.suffix ∧
        (process_movie_file cfg ora st fs src droot oroot).2.statF dest = some osz) ∧
    (nsz < osz →
      status_of (process_movie_file cfg ora st fs src droot oroot).1 src =
        some Status.done_moved ∧
      (process_movie_file cfg ora st fs src droot oroot).2.existsFile
        (dest_tmp_of droot oroot src) = false ∧
      (process_movie_file cfg ora st fs src droot oroot).2.statF src = none ∧
      ∃ dest : NPath, dest.dir = reroot droot oroot src.dir ∧ dest.suffix = ".mp4" ∧
        (process_movie_file cfg ora st fs src droot oroot).2.statF dest = some nsz) := by
  rw [pm_reach_transcode cfg ora st fs src droot oroot hgate htmp hconf hstab hskip]
  have hne : src ≠ dest_tmp_of droot oroot src := video_ne_dest_tmp src droot oroot hvid
  have hne' : dest_tmp_of droot oroot src ≠ src := fun h => hne h.symm
  unfold transcode_phase transcode_with_handbrake
  simp only [hdry, Bool.false_eq_true, if_false, ite_false, hout, hrc, ne_eq,
    not_true_eq_false]
  set dtmp := dest_tmp_of droot oroot src with hdtmp_def
  set fs2 := (fs.ensureDir dtmp.dir).setFile dtmp nsz with hfs2_def
  have hex2 : fs2.existsFile dtmp = true := by
    simp [FS.existsFile, hfs2_def, statF_setFile_self]
  have hsrc2 : fs2.statF src = some osz := by
    rw [hfs2_def, statF_setFile_ne _ _ _ _ hne, statF_ensureDir]
    exact hosz
  have hdtmp2 : fs2.statF dtmp = some nsz := by
    rw [hfs2_def, statF_setFile_self]
  simp only [hex2, Bool.not_true, Bool.false_eq_true, if_false, ite_false, hsrc2, hdtmp2]
  unfold size_phase
  constructor
  · intro hle
    rw [if_pos hle]
    simp only [hdry, Bool.false_eq_true, if_false, ite_false]
    set fs3 := fs2.removeFile dtmp with hfs3_def
    rw [move_safe_false_eq fs3 src (reroot droot oroot src.dir)]
    set dest := unique_dest (fs3.ensureDir (reroot droot oroot src.dir))
      { dir := reroot droot oroot src.dir, stem := src.stem, suffix := src.suffix } with hdest_def
    have hdest_dir : dest.dir = reroot droot oroot src.dir := by
      rw [hdest_def]; exact unique_dest_dir _ _
    have hdest_suffix : dest.suffix = src.suffix := by
      rw [hdest_def]; exact unique_dest_suffix _ _
    have hsd : src ≠ dest := by
      intro h
      have hdir : src.dir = dest.dir := congrArg NPath.dir h
      rw [hdest_dir] at hdir
      exact hdd hdir
    have hsrc3 : (fs3.ensureDir (reroot droot oroot src.dir)).statF src = some osz := by
      rw [statF_ensureDir, hfs3_def, statF_removeFile_ne _ _ _ hne]
      exact hsrc2
    refine ⟨status_of_mark_self _ _ _ _, ?_, ?_, dest, hdest_dir, hdest_suffix, ?_⟩
    · have htd : dtmp ≠ dest := by
        intro h
        exact video_suffix_ne_tmp src hvid (by rw [← hdest_suffix, ← h]; rfl)
      rw [FS.existsFile, statF_renameFile_other _ _ _ _ hne' htd, statF_ensureDir, hfs3_def,
        statF_removeFile_self]
      rfl
    · exact statF_renameFile_src _ _ _ hsd (by rw [hsrc3]; rfl)
    · exact statF_renameFile_dest _ _ _ _ hsrc3
  · intro hlt
    rw [if_neg (by omega)]
    simp only [hdry, Bool.false_eq_true, if_false, ite_false]
    set d0 := dest_final_of droot oroot src with hd0_def
    set dfin := if fs2.existsFile d0 then unique_dest fs2 d0 else d0 with hdfin_def
    have hd0_dir : d0.dir = reroot droot oroot src.dir := rfl
    have hd0_suffix : d0.suffix = ".mp4" := rfl
    have hdfin_dir : dfin.dir = reroot droot oroot src.dir := by
      rw [hdfin_def]
      split
      · rw [unique_dest_dir]; exact hd0_dir
      · exact hd0_dir
    have hdfin_suffix : dfin.suffix = ".mp4" := by
      rw [hdfin_def]
      split
      · rw [unique_dest_suffix]; exact hd0_suffix
      · exact hd0_suffix
    have htd : dtmp ≠ dfin := by
      intro h
      have hsuf : dtmp.suffix = ".mp4" := by rw [h, hdfin_suffix]
      have hsuf2 : (".mp4" ++ TEMP_SUFFIX : String) = ".mp4" := hsuf
      exact absurd hsuf2 (by decide)
    have hsd : src ≠ dfin := by
      intro h
      have hdir : src.dir = dfin.dir := congrArg NPath.dir h
      rw [hdfin_dir] at hdir
      exact hdd hdir
    have hsd' : dfin ≠ src := fun h => hsd h.symm
    refine ⟨status_of_mark_self _ _ _ _, ?_, ?_, dfin, hdfin_dir, hdfin_suffix, ?_⟩
    · rw [FS.existsFile, statF_removeFile_ne _ _ _ hne',
        statF_renameFile_src _ _ _ htd (by rw [hdtmp2]; rfl)]
      rfl
    · rw [statF_removeFile_self]
    · rw [statF_removeFile_ne _ _ _ hsd', statF_renameFile_dest _ _ _ _ hdtmp2]

/-- Oracle for a transcode yielding a larger artifact (700 > 500). -/
def exOraBig : NPath → Oracle := fun _ =>
  { s1 := some 500, s2 := some 500, probe := none, hbRc := 0, hbOut := some 700, userYes := true }

/-- Witness for the size-comparison theorem: both branches at concrete
inputs (original 500 vs artifact 700, and original 500 vs artifact 300). -/
theorem C2_size_comparison_witness :
    (status_of (process_movie_file exCfg exOraBig [] exFS exSrc ["dl"] ["out"]).1 exSrc =
        some Status.kept_original_moved ∧
      (process_movie_file exCfg exOraBig [] exFS exSrc ["dl"] ["out"]).2.existsFile
        (dest_tmp_of ["dl"] ["out"] exSrc) = false ∧
      (process_movie_file exCfg exOraBig [] exFS exSrc ["dl"] ["out"]).2.statF exSrc = none ∧
      ∃ dest : NPath, dest.dir = reroot ["dl"] ["out"] exSrc.dir ∧ dest.suffix = exSrc.suffix ∧
        (process_movie_file exCfg exOraBig [] exFS exSrc ["dl"] ["out"]).2.statF dest =
          some 500) ∧
    (status_of (process_movie_file exCfg exOra1920 [] exFS exSrc ["dl"] ["out"]).1 exSrc =
        some Status.done_moved ∧
      (process_movie_file exCfg exOra1920 [] exFS exSrc ["dl"] ["out"]).2.existsFile
        (dest_tmp_of ["dl"] ["out"] exSrc) = false ∧
      (process_movie_file exCfg exOra1920 [] exFS exSrc ["dl"] ["out"]).2.statF exSrc = none ∧
      ∃ dest : NPath, dest.dir = reroot ["dl"] ["out"] exSrc.dir ∧ dest.suffix = ".mp4" ∧
        (process_movie_file exCfg exOra1920 [] exFS exSrc ["dl"] ["out"]).2.statF dest =
          some 300) :=
  ⟨(C2_size_comparison exCfg exOraBig [] exFS exSrc ["dl"] ["out"] 500 700 (by decide)
      (by decide) (by decide) (by decide) (by decide) (by decide) (by decide) (by decide)
      (by decide) (by decide) (by decide)).1 (by decide),
    (C2_size_comparison exCfg exOra1920 [] exFS exSrc ["dl"] ["out"] 500 300 (by decide)
      (by decide) (by decide) (by decide) (by decide) (by decide) (by decide) (by decide)
      (by decide) (by decide) (by decide)).2 (by decide)⟩

-- ---------- C5: collision-safe naming ----------

/-- Decode a decimal digit character. -/
def digitVal (c : Char) : Nat := c.toNat - 48

theorem digitVal_digitChar (d : Nat) (h : d < 10) : digitVal (Nat.digitChar d) = d := by
  interval_cases d <;> decide

/-- Decode a digit string, most significant digit first. -/
def decVal (l : List Char) : Nat := l.foldl (fun a c => 10 * a + digitVal c) 0

theorem decVal_append_single (l : List Char) (c : Char) :
    decVal (l ++ [c]) = 10 * decVal l + digitVal c := by
  unfold decVal
  rw [List.foldl_append]
  rfl

theorem toDigitsCore_append (b : Nat) :
    ∀ (fuel n : Nat) (acc : List Char),
      Nat.toDigitsCore b fuel n acc = Nat.toDigitsCore b fuel n [] ++ acc := by
  intro fuel
  induction fuel with
  | zero => intro n acc; rfl
  | succ fuel ih =>
    intro n acc
    unfold Nat.toDigitsCore
    by_cases h : n / b = 0
    · simp [h]
    · simp only [h, if_false, ite_false]
      rw [ih (n / b) (Nat.digitChar (n % b) :: acc), ih (n / b) [Nat.digitChar (n % b)]]
      simp

theorem decVal_toDigitsCore_10 :
    ∀ (fuel n : Nat), n < fuel → decVal (Nat.toDigitsCore 10 fuel n []) = n := by
  intro fuel
  induction fuel with
  | zero => intro n h; omega
  | succ fuel ih =>
    intro n h
    unfold Nat.toDigitsCore
    by_cases hd : n / 10 = 0
    · simp only [hd, if_true, ite_true]
      have h10 : n < 10 := by omega
      show 10 * 0 + digitVal (Nat.digitChar (n % 10)) = n
      rw [digitVal_digitChar (n % 10) (by omega)]
      omega
    · simp only [hd, if_false, ite_false]
      rw [toDigitsCore_append 10 fuel (n / 10) [Nat.digitChar (n % 10)]]
      rw [decVal_append_single]
      have hlt : n / 10 < fuel := by
        have h1 : n / 10 < n := Nat.div_lt_self (by omega) (by omega)
        omega
      rw [ih (n / 10) hlt, digitVal_digitChar (n % 10) (by omega)]
      omega

/-- Decimal rendering of naturals is injective. -/
theorem nat_repr_inj (m n : Nat) (h : Nat.repr m = Nat.repr n) : m = n := by
  have hdata : Nat.toDigitsCore 10 (m + 1) m [] = Nat.toDigitsCore 10 (n + 1) n [] := by
    have h2 := congrArg String.data h
    simpa [Nat.repr, Nat.toDigits, List.asString] using h2
  calc m = decVal (Nat.toDigitsCore 10 (m + 1) m []) :=
        (decVal_toDigitsCore_10 (m + 1) m (by omega)).symm
    _ = decVal (Nat.toDigitsCore 10 (n + 1) n []) := by rw [hdata]
    _ = n := decVal_toDigitsCore_10 (n + 1) n (by omega)

theorem candAt_inj (dest : NPath) (i j : Nat) (h : candAt dest i = candAt dest j) : i = j := by
  have hstem : dest.stem ++ "_" ++ Nat.repr i = dest.stem ++ "_" ++ Nat.repr j :=
    congrArg NPath.stem h
  have hdata := congrArg String.data hstem
  simp only [String.data_append, List.append_assoc] at hdata
  have h2 : (Nat.repr i).data = (Nat.repr j).data :=
    List.append_cancel_left (List.append_cancel_left hdata)
  apply nat_repr_inj
  cases hri : Nat.repr i with
  | mk di =>
    cases hrj : Nat.repr j with
    | mk dj =>
      rw [hri, hrj] at h2
      exact congrArg String.mk (by simpa using h2)

theorem lookupKey_isSome_mem {β : Type} (l : List (NPath × β)) (p : NPath)
    (h : (lookupKey l p).isSome = true) : p ∈ l.map Prod.fst := by
  induction l with
  | nil => simp [lookupKey] at h
  | cons e t ih =>
    by_cases he : e.1 = p
    · simp [he]
    · simp only [lookupKey, if_neg he] at h
      simp [ih h]

theorem exists_free_cand (fs : FS) (dest : NPath) :
    ∃ j : Nat, j < fs.files.length + 1 ∧ fs.existsFile (candAt dest (1 + j)) = false := by
  by_contra hall
  push_neg at hall
  have hmem : ∀ j ∈ Finset.range (fs.files.length + 1),
      candAt dest (1 + j) ∈ (fs.files.map Prod.fst).toFinset := by
    intro j hj
    rw [List.mem_toFinset]
    apply lookupKey_isSome_mem
    have hx := hall j (Finset.mem_range.mp hj)
    revert hx
    unfold FS.existsFile FS.statF
    cases lookupKey fs.files (candAt dest (1 + j)) <;> simp
  have hinj : Function.Injective (fun j : Nat => candAt dest (1 + j)) := by
    intro a b hab
    have := candAt_inj dest (1 + a) (1 + b) hab
    omega
  have hsub : (Finset.range (fs.files.length + 1)).image (fun j => candAt dest (1 + j)) ⊆
      (fs.files.map Prod.fst).toFinset := by
    intro x hx
    rcases Finset.mem_image.mp hx with ⟨j, hj, rfl⟩
    exact hmem j hj
  have hcard := Finset.card_le_card hsub
  rw [Finset.card_image_of_injective _ hinj, Finset.card_range] at hcard
  have hlen := List.toFinset_card_le (fs.files.map Prod.fst)
  rw [List.length_map] at hlen
  omega

theorem unique_dest_loop_free (fs : FS) (dest : NPath) :
    ∀ (fuel i : Nat), (∃ j, j < fuel ∧ fs.existsFile (candAt dest (i + j)) = false) →
      fs.existsFile (unique_dest_loop fs dest i fuel) = false := by
  intro fuel
  induction fuel with
  | zero =>
    intro i h
    rcases h with ⟨j, hj, _⟩
    omega
  | succ fuel ih =>
    intro i h
    unfold unique_dest_loop
    by_cases hex : fs.existsFile (candAt dest i) = true
    · simp only [hex, if_true, ite_true]
      apply ih (i + 1)
      rcases h with ⟨j, hj, hfree⟩
      cases j with
      | zero =>
        rw [Nat.add_zero] at hfree
        rw [hfree] at hex
        cases hex
      | succ j' =>
        refine ⟨j', by omega, ?_⟩
        have harith : i + (j' + 1) = i + 1 + j' := by omega
        rwa [harith] at hfree
    · have hex' : fs.existsFile (candAt dest i) = false := by
        revert hex
        cases fs.existsFile (candAt dest i) <;> simp
      simp only [hex', Bool.false_eq_true, if_false, ite_false]

/-- The name `unique_dest` settles on never exists beforehand. -/
theorem unique_dest_free (fs : FS) (dest : NPath) :
    fs.existsFile (unique_dest fs dest) = false := by
  unfold unique_dest
  by_cases hex : fs.existsFile dest = true
  · simp only [hex, if_true, ite_true]
    rcases exists_free_cand fs dest with ⟨j, hj, hfree⟩
    exact unique_dest_loop_free fs dest (fs.files.length + 1) 1 ⟨j, by omega, hfree⟩
  · have hex' : fs.existsFile dest = false := by
      revert hex
      cases fs.existsFile dest <;> simp
    simp only [hex', Bool.false_eq_true, if_false, ite_false]

/-- A destination directory already holding movie.mp4. -/
def exColFS : FS :=
  { files := [({ dir := ["out"], stem := "movie", suffix := ".mp4" }, 7),
      ({ dir := ["dl"], stem := "movie", suffix := ".mp4" }, 10)],
    dirs := [["out"]] }

/-- C5: `move_safe` never overwrites: the destination it settles on did not
exist before the move (for every filesystem, source and destination
directory, via the incrementing `_1, _2, ...` stem suffixes of
`unique_dest`); in particular relocating movie.mp4 into a directory already
holding movie.mp4 yields movie_1.mp4. -/
theorem C5_never_overwrite (d : Bool) (fs : FS) (src : NPath) (dd : List String) :
    fs.existsFile ((move_safe d fs src dd).2) = false ∧
    (move_safe false exColFS { dir := ["dl"], stem := "movie", suffix := ".mp4" } ["out"]).2 =
      { dir := ["out"], stem := "movie_1", suffix := ".mp4" } := by
  constructor
  · have hshape : (move_safe d fs src dd).2 =
        unique_dest (fs.ensureDir dd) { dir := dd, stem := src.stem, suffix := src.suffix } := by
      cases d <;> rfl
    rw [hshape]
    exact unique_dest_free (fs.ensureDir dd) _
  · decide

-- ---------- C10: one stability sample gates the whole show ----------

/-- Every group of the show grouping is non-empty (empty seasons are
omitted at collection time). -/
theorem collect_group_ne (fs : FS) (top : List String) :
    ∀ e ∈ collect_videos_two_depth fs top, e.2 ≠ [] := by
  intro e he
  unfold collect_videos_two_depth at he
  rw [List.mem_append] at he
  cases he with
  | inl h =>
    by_cases hd : (filesDirectlyIn fs top).isEmpty
    · simp [hd] at h
    · simp only [hd, Bool.false_eq_true, if_false, ite_false, List.mem_singleton] at h
      subst h
      intro hcon
      have hcon2 : filesDirectlyIn fs top = [] := hcon
      rw [hcon2] at hd
      exact hd rfl
  | inr h =>
    rcases List.mem_filterMap.mp h with ⟨s, hs, hf⟩
    by_cases hv : (videosUnder fs (top ++ [s])).isEmpty
    · simp [hv] at hf
    · simp only [hv, Bool.false_eq_true, if_false, ite_false, Option.some.injEq] at hf
      rw [← hf]
      intro hcon
      have hcon2 : videosUnder fs (top ++ [s]) = [] := hcon
      rw [hcon2] at hv
      exact hv rfl

/-- C10: before any file of a show directory is processed, stability is
checked on exactly one sample — the first video of the first (non-empty)
group of the grouping; an unstable sample skips the whole directory for the
pass with no status written and no filesystem change, and a stable sample
hands the whole directory to `process_show_topdir`. -/
theorem C10_sample_gates_show (cfg : Config) (ora : NPath → Oracle) (poster : Option Nat)
    (st : Store) (fs : FS) (entry droot oroot : List String)
    (hne : collect_videos_two_depth fs entry ≠ []) :
    ∃ smp : NPath,
      firstSample (collect_videos_two_depth fs entry) = some smp ∧
      (∀ (k : String) (vs : List NPath) (rest : List (String × List NPath)),
        collect_videos_two_depth fs entry = (k, vs) :: rest → vs.head? = some smp) ∧
      (file_is_stable (ora smp).s1 (ora smp).s2 = false →
        scan_entry_dir cfg ora poster st fs entry droot oroot = (st, fs)) ∧
      (file_is_stable (ora smp).s1 (ora smp).s2 = true →
        scan_entry_dir cfg ora poster st fs entry droot oroot =
          process_show_topdir cfg ora poster st fs entry droot oroot) := by
  obtain ⟨e, rest, hm⟩ : ∃ e rest, collect_videos_two_depth fs entry = e :: rest := by
    cases h : collect_videos_two_depth fs entry with
    | nil => exact absurd h hne
    | cons a b => exact ⟨a, b, rfl⟩
  have he2 : e.2 ≠ [] :=
    collect_group_ne fs entry e (by rw [hm]; exact List.mem_cons_self e rest)
  obtain ⟨x, xs, hv⟩ : ∃ x xs, e.2 = x :: xs := by
    cases h : e.2 with
    | nil => exact absurd h he2
    | cons a b => exact ⟨a, b, rfl⟩
  have hfs1 : firstSample (e :: rest) = some x := by
    unfold firstSample
    rw [hv]
  have hfs : firstSample (collect_videos_two_depth fs entry) = some x := by
    rw [hm]
    exact hfs1
  refine ⟨x, hfs, ?_, ?_, ?_⟩
  · intro k vs rest' hEq
    rw [hm] at hEq
    injection hEq with h1 h2
    have hvs : vs = e.2 := by rw [h1]
    rw [hvs, hv]
    rfl
  · intro hunstable
    unfold scan_entry_dir
    simp only [hm, List.isEmpty_cons, Bool.false_eq_true, if_false, ite_false, hfs1]
    simp [hunstable]
  · intro hstable
    unfold scan_entry_dir
    simp only [hm, List.isEmpty_cons, Bool.false_eq_true, if_false, ite_false, hfs1]
    simp [hstable]

/-- A show directory whose sample episode is still growing. -/
def exShowFS : FS :=
  { files := [({ dir := ["dl", "ShowB", "S1"], stem := "e1", suffix := ".mkv" }, 100)],
    dirs := [["dl", "ShowB"], ["dl", "ShowB", "S1"]] }

/-- Witness: the sample-stability gate at a concrete show directory whose
single episode is growing. -/
theorem C10_sample_gates_show_witness :
    ∃ smp : NPath,
      firstSample (collect_videos_two_depth exShowFS ["dl", "ShowB"]) = some smp ∧
      (∀ (k : String) (vs : List NPath) (rest : List (String × List NPath)),
        collect_videos_two_depth exShowFS ["dl", "ShowB"] = (k, vs) :: rest →
          vs.head? = some smp) ∧
      (file_is_stable (exOraGrowing smp).s1 (exOraGrowing smp).s2 = false →
        scan_entry_dir exCfg exOraGrowing none [] exShowFS ["dl", "ShowB"] ["dl"] ["out"] =
          ([], exShowFS)) ∧
      (file_is_stable (exOraGrowing smp).s1 (exOraGrowing smp).s2 = true →
        scan_entry_dir exCfg exOraGrowing none [] exShowFS ["dl", "ShowB"] ["dl"] ["out"] =
          process_show_topdir exCfg exOraGrowing none [] exShowFS ["dl", "ShowB"] ["dl"]
            ["out"]) :=
  C10_sample_gates_show exCfg exOraGrowing none [] exShowFS ["dl", "ShowB"] ["dl"] ["out"]
    (by decide)

-- ---------- C4: season consolidation — frame lemmas ----------

theorem size_phase_store (cfg : Config) (st : Store) (fs : FS) (src : NPath)
    (droot oroot : List String) (dtmp : NPath) (osz nsz : Nat) :
    ∃ s n, (size_phase cfg st fs src droot oroot dtmp osz nsz).1 = mark st src s n := by
  unfold size_phase
  split
  · exact ⟨_, _, rfl⟩
  · exact ⟨_, _, rfl⟩

theorem transcode_phase_store (cfg : Config) (ora : NPath → Oracle) (st : Store) (fs : FS)
    (src : NPath) (droot oroot : List String) :
    ∃ s n, (transcode_phase cfg ora st fs src droot oroot).1 =
      mark (mark st src Status.queued ("ready")) src s n := by
  unfold transcode_phase
  dsimp only
  split
  · exact ⟨_, _, rfl⟩
  · split
    · exact ⟨_, _, rfl⟩
    · split
      · exact size_phase_store cfg _ _ src droot oroot _ _ _
      · exact ⟨_, _, rfl⟩

theorem pm_store_shape (cfg : Config) (ora : NPath → Oracle) (st : Store) (fs : FS)
    (src : NPath) (droot oroot : List String) :
    (process_movie_file cfg ora st fs src droot oroot).1 = st ∨
    (∃ s n, (process_movie_file cfg ora st fs src droot oroot).1 = mark st src s n) ∨
    (∃ s n, (process_movie_file cfg ora st fs src droot oroot).1 =
      mark (mark st src Status.queued ("ready")) src s n) := by
  unfold process_movie_file process_movie_body
  split
  · exact Or.inl rfl
  · split
    · exact Or.inl rfl
    · split
      · exact Or.inr (Or.inl ⟨_, _, rfl⟩)
      · split
        · exact Or.inl rfl
        · split
          · exact Or.inr (Or.inl ⟨_, _, rfl⟩)
          · exact Or.inr (Or.inr (transcode_phase_store cfg ora st fs src droot oroot))

/-- The decision engine writes no status for any path other than the one it
processes. -/
theorem pm_status_frame (cfg : Config) (ora : NPath → Oracle) (st : Store) (fs : FS)
    (src : NPath) (droot oroot : List String) (q : NPath) (hq : q ≠ src) :
    status_of (process_movie_file cfg ora st fs src droot oroot).1 q = status_of st q := by
  rcases pm_store_shape cfg ora st fs src droot oroot with h | ⟨s, n, h⟩ | ⟨s, n, h⟩
  · rw [h]
  · rw [h]
    exact status_of_mark_ne _ _ _ _ _ hq
  · rw [h]
    exact (status_of_mark_ne _ _ _ _ _ hq).trans (status_of_mark_ne _ _ _ _ _ hq)

theorem dirs_renameFile (fs : FS) (src dest : NPath) :
    (fs.renameFile src dest).dirs = fs.dirs := by
  unfold FS.renameFile
  split <;> rfl

theorem contains_ensureDir (fs : FS) (dx d : List String) (hx : fs.dirs.contains d = true) :
    ((fs.ensureDir dx).dirs).contains d = true := by
  unfold FS.ensureDir
  split
  · exact hx
  · simp only [List.contains_cons]
    rw [hx]
    simp

theorem contains_move_safe (b : Bool) (fs : FS) (src : NPath) (dx d : List String)
    (hx : fs.dirs.contains d = true) :
    (((move_safe b fs src dx).1).dirs).contains d = true := by
  unfold move_safe
  split
  · exact contains_ensureDir fs dx d hx
  · rw [dirs_renameFile]
    exact contains_ensureDir fs dx d hx

theorem dirs_transcode (cfg : Config) (o : Oracle) (fs : FS) (dtmp : NPath) :
    ((transcode_with_handbrake cfg o fs dtmp).1).dirs = fs.dirs := by
  unfold transcode_with_handbrake
  split
  · rfl
  · split
    · rfl
    · rfl

theorem size_phase_dirs_mono (cfg : Config) (st : Store) (fs : FS) (src : NPath)
    (droot oroot : List String) (dtmp : NPath) (osz nsz : Nat) (d : List String)
    (hd : fs.dirs.contains d = true) :
    ((size_phase cfg st fs src droot oroot dtmp osz nsz).2).dirs.contains d = true := by
  unfold size_phase
  split
  · apply contains_move_safe
    split
    · exact hd
    · exact hd
  · split
    · exact hd
    · rw [show ∀ fsx : FS, (fsx.removeFile src).dirs = fsx.dirs from fun _ => rfl,
        dirs_renameFile]
      exact hd

theorem transcode_phase_dirs_mono (cfg : Config) (ora : NPath → Oracle) (st : Store) (fs : FS)
    (src : NPath) (droot oroot : List String) (d : List String)
    (hd : fs.dirs.contains d = true) :
    ((transcode_phase cfg ora st fs src droot oroot).2).dirs.contains d = true := by
  have h1 : ((transcode_with_handbrake cfg (ora src)
      (fs.ensureDir (dest_tmp_of droot oroot src).dir) (dest_tmp_of droot oroot src)).1).dirs.contains
      d = true := by
    rw [dirs_transcode]
    exact contains_ensureDir fs _ d hd
  unfold transcode_phase
  dsimp only
  split
  · split
    · exact h1
    · exact h1
  · split
    · exact h1
    · split
      · exact size_phase_dirs_mono cfg _ _ src droot oroot _ _ _ d h1
      · exact h1

/-- The decision engine never removes known directories. -/
theorem pm_dirs_mono (cfg : Config) (ora : NPath → Oracle) (st : Store) (fs : FS)
    (src : NPath) (droot oroot : List String) (d : List String)
    (hd : fs.dirs.contains d = true) :
    ((process_movie_file cfg ora st fs src droot oroot).2).dirs.contains d = true := by
  unfold process_movie_file process_movie_body
  split
  · exact hd
  · split
    · exact hd
    · split
      · exact hd
      · split
        · exact hd
        · split
          · exact contains_move_safe _ _ _ _ _ hd
          · exact transcode_phase_dirs_mono cfg ora st fs src droot oroot d hd

-- ---------- C4: group-level lemmas ----------

theorem mem_addFlag (l : List String) (s x : String) :
    x ∈ addFlag l s ↔ x ∈ l ∨ x = s := by
  unfold addFlag
  split
  · next h =>
    constructor
    · exact fun hx => Or.inl hx
    · rintro (hx | rfl)
      · exact hx
      · simpa using h
  · simp

theorem group_status_frame (cfg : Config) (ora : NPath → Oracle) (droot oroot : List String)
    (sk : String) (vids : List NPath) :
    ∀ (acc : Store × FS × List String) (v : NPath), v ∉ vids →
      status_of (process_group cfg ora droot oroot sk acc vids).1 v = status_of acc.1 v := by
  induction vids with
  | nil => intro acc v _; rfl
  | cons w t ih =>
    intro acc v hv
    have hvw : v ≠ w ∧ v ∉ t := by simpa [List.mem_cons, not_or] using hv
    unfold process_group
    simp only [List.foldl_cons]
    unfold process_group at ih
    rw [ih _ v hvw.2]
    exact pm_status_frame cfg ora acc.1 acc.2.1 w droot oroot v hvw.1

theorem group_flags_mono (cfg : Config) (ora : NPath → Oracle) (droot oroot : List String)
    (sk : String) (vids : List NPath) :
    ∀ (acc : Store × FS × List String) (x : String), x ∈ acc.2.2 →
      x ∈ (process_group cfg ora droot oroot sk acc vids).2.2 := by
  induction vids with
  | nil => intro acc x hx; exact hx
  | cons w t ih =>
    intro acc x hx
    unfold process_group
    simp only [List.foldl_cons]
    unfold process_group at ih
    apply ih
    dsimp only
    split
    · exact (mem_addFlag _ _ _).mpr (Or.inl hx)
    · exact hx

theorem group_flags_bound (cfg : Config) (ora : NPath → Oracle) (droot oroot : List String)
    (sk : String) (vids : List NPath) :
    ∀ (acc : Store × FS × List String) (x : String),
      x ∈ (process_group cfg ora droot oroot sk acc vids).2.2 → x ∈ acc.2.2 ∨ x = sk := by
  induction vids with
  | nil => intro acc x hx; exact Or.inl hx
  | cons w t ih =>
    intro acc x hx
    unfold process_group at hx
    simp only [List.foldl_cons] at hx
    unfold process_group at ih
    rcases ih _ x hx with h | h
    · revert h
      dsimp only
      split
      · intro h
        rcases (mem_addFlag _ _ _).mp h with h2 | h2
        · exact Or.inl h2
        · exact Or.inr h2
      · exact fun h => Or.inl h
    · exact Or.inr h

theorem process_group_cons (cfg : Config) (ora : NPath → Oracle) (droot oroot : List String)
    (sk : String) (acc : Store × FS × List String) (w : NPath) (t : List NPath) :
    process_group cfg ora droot oroot sk acc (w :: t) =
      process_group cfg ora droot oroot sk
        ((process_movie_file cfg ora acc.1 acc.2.1 w droot oroot).1,
          (process_movie_file cfg ora acc.1 acc.2.1 w droot oroot).2,
          if trigStatus (status_of (process_movie_file cfg ora acc.1 acc.2.1 w droot oroot).1 w) =
              true then
            addFlag acc.2.2 sk
          else acc.2.2) t := rfl

theorem group_flag_iff (cfg : Config) (ora : NPath → Oracle) (droot oroot : List String)
    (sk : String) (vids : List NPath) :
    ∀ acc : Store × FS × List String, vids.Nodup →
      (sk ∈ (process_group cfg ora droot oroot sk acc vids).2.2 ↔
        sk ∈ acc.2.2 ∨ ∃ v ∈ vids,
          trigStatus (status_of (process_group cfg ora droot oroot sk acc vids).1 v) = true) := by
  induction vids with
  | nil =>
    intro acc _
    simp [process_group]
  | cons w t ih =>
    intro acc hnd
    have hw_t : w ∉ t := (List.nodup_cons.mp hnd).1
    have hnd_t : t.Nodup := (List.nodup_cons.mp hnd).2
    rw [process_group_cons]
    set accw : Store × FS × List String :=
      ((process_movie_file cfg ora acc.1 acc.2.1 w droot oroot).1,
        (process_movie_file cfg ora acc.1 acc.2.1 w droot oroot).2,
        if trigStatus (status_of (process_movie_file cfg ora acc.1 acc.2.1 w droot oroot).1 w) =
            true then
          addFlag acc.2.2 sk
        else acc.2.2) with haccw
    have hstat_w : status_of (process_group cfg ora droot oroot sk accw t).1 w =
        status_of accw.1 w :=
      group_status_frame cfg ora droot oroot sk t accw w hw_t
    by_cases hT :
        trigStatus (status_of (process_movie_file cfg ora acc.1 acc.2.1 w droot oroot).1 w) = true
    · apply iff_of_true
      · apply group_flags_mono
        rw [haccw]
        dsimp only
        rw [if_pos hT]
        exact (mem_addFlag _ _ _).mpr (Or.inr rfl)
      · refine Or.inr ⟨w, List.mem_cons_self w t, ?_⟩
        rw [hstat_w]
        exact hT
    · have haccw2 : accw.2.2 = acc.2.2 := by
        rw [haccw]
        dsimp only
        rw [if_neg hT]
      simp only [Bool.not_eq_true] at hT
      have hPw : trigStatus (status_of (process_group cfg ora droot oroot sk accw t).1 w) =
          false := by
        rw [hstat_w]
        exact hT
      rw [ih accw hnd_t, haccw2]
      simp [List.mem_cons, exists_eq_or_imp, hPw]

-- ---------- C4: the per-file phase of the show handler ----------

/-- The season fold of `show_phase1` (proof-level abbreviation of the
line-332 loop). -/
def phase1_fold (cfg : Config) (ora : NPath → Oracle) (droot oroot : List String)
    (l : List (String × List NPath)) (acc : Store × FS × List String) :
    Store × FS × List String :=
  l.foldl (fun a e => if e.1 = "" then a else process_group cfg ora droot oroot e.1 a e.2) acc

theorem show_phase1_eq (cfg : Config) (ora : NPath → Oracle) (st : Store) (fs : FS)
    (mapping : List (String × List NPath)) (droot oroot : List String) :
    show_phase1 cfg ora st fs mapping droot oroot =
      phase1_fold cfg ora droot oroot mapping
        (match lookupGroup mapping "" with
          | some vids => process_group cfg ora droot oroot ("") (st, fs, []) vids
          | none => (st, fs, [])) := rfl

theorem phase1_fold_cons (cfg : Config) (ora : NPath → Oracle) (droot oroot : List String)
    (e : String × List NPath) (l : List (String × List NPath)) (acc : Store × FS × List String) :
    phase1_fold cfg ora droot oroot (e :: l) acc =
      phase1_fold cfg ora droot oroot l
        (if e.1 = "" then acc else process_group cfg ora droot oroot e.1 acc e.2) := rfl

theorem phase1_fold_append (cfg : Config) (ora : NPath → Oracle) (droot oroot : List String)
    (l1 l2 : List (String × List NPath)) (acc : Store × FS × List String) :
    phase1_fold cfg ora droot oroot (l1 ++ l2) acc =
      phase1_fold cfg ora droot oroot l2 (phase1_fold cfg ora droot oroot l1 acc) := by
  unfold phase1_fold
  rw [List.foldl_append]

theorem fold_status_frame (cfg : Config) (ora : NPath → Oracle) (droot oroot : List String)
    (l : List (String × List NPath)) (v : NPath) :
    ∀ acc : Store × FS × List String, (∀ e ∈ l, e.1 ≠ "" → v ∉ e.2) →
      status_of (phase1_fold cfg ora droot oroot l acc).1 v = status_of acc.1 v := by
  induction l with
  | nil => intro acc _; rfl
  | cons e t ih =>
    intro acc hl
    rw [phase1_fold_cons]
    rw [ih _ (fun e2 he2 => hl e2 (List.mem_cons_of_mem e he2))]
    by_cases he : e.1 = ""
    · rw [if_pos he]
    · rw [if_neg he]
      exact group_status_frame cfg ora droot oroot e.1 e.2 acc v
        (hl e (List.mem_cons_self e t) he)

theorem fold_flags_mono (cfg : Config) (ora : NPath → Oracle) (droot oroot : List String)
    (l : List (String × List NPath)) :
    ∀ (acc : Store × FS × List String) (x : String), x ∈ acc.2.2 →
      x ∈ (phase1_fold cfg ora droot oroot l acc).2.2 := by
  induction l with
  | nil => intro acc x hx; exact hx
  | cons e t ih =>
    intro acc x hx
    rw [phase1_fold_cons]
    apply ih
    by_cases he : e.1 = ""
    · rw [if_pos he]; exact hx
    · rw [if_neg he]
      exact group_flags_mono cfg ora droot oroot e.1 e.2 acc x hx

theorem fold_flags_bound (cfg : Config) (ora : NPath → Oracle) (droot oroot : List String)
    (l : List (String × List NPath)) :
    ∀ (acc : Store × FS × List String) (x : String),
      x ∈ (phase1_fold cfg ora droot oroot l acc).2.2 →
        x ∈ acc.2.2 ∨ ∃ e ∈ l, e.1 ≠ "" ∧ x = e.1 := by
  induction l with
  | nil => intro acc x hx; exact Or.inl hx
  | cons e t ih =>
    intro acc x hx
    rw [phase1_fold_cons] at hx
    rcases ih _ x hx with h | ⟨e2, he2, hne2, hxe2⟩
    · by_cases he : e.1 = ""
      · rw [if_pos he] at h
        exact Or.inl h
      · rw [if_neg he] at h
        rcases group_flags_bound cfg ora droot oroot e.1 e.2 acc x h with h2 | h2
        · exact Or.inl h2
        · exact Or.inr ⟨e, List.mem_cons_self e t, he, h2⟩
    · exact Or.inr ⟨e2, List.mem_cons_of_mem e he2, hne2, hxe2⟩

theorem fold_flag_stable (cfg : Config) (ora : NPath → Oracle) (droot oroot : List String)
    (l : List (String × List NPath)) (sk : String) (hsk : ∀ e ∈ l, e.1 ≠ sk)
    (acc : Store × FS × List String) :
    sk ∈ (phase1_fold cfg ora droot oroot l acc).2.2 ↔ sk ∈ acc.2.2 := by
  constructor
  · intro h
    rcases fold_flags_bound cfg ora droot oroot l acc sk h with h2 | ⟨e, he, _, hske⟩
    · exact h2
    · exact absurd hske.symm (hsk e he)
  · exact fold_flags_mono cfg ora droot oroot l acc sk

theorem lookupGroup_some_split (l : List (String × List NPath)) (k : String)
    (vs : List NPath) (h : lookupGroup l k = some vs) :
    ∃ pre post, l = pre ++ (k, vs) :: post ∧ ∀ e ∈ pre, e.1 ≠ k := by
  induction l with
  | nil => cases h
  | cons e t ih =>
    unfold lookupGroup at h
    by_cases he : e.1 = k
    · rw [if_pos he] at h
      refine ⟨[], t, ?_, by simp⟩
      have he2 : e = (k, vs) := by
        cases e
        simp only [Option.some.injEq] at h
        simp_all
      rw [he2]
      rfl
    · rw [if_neg he] at h
      rcases ih h with ⟨pre, post, heq, hpre⟩
      refine ⟨e :: pre, post, by rw [heq]; rfl, ?_⟩
      intro e2 he2
      rcases List.mem_cons.mp he2 with rfl | h2
      · exact he
      · exact hpre e2 h2

theorem lookupGroup_some_mem (l : List (String × List NPath)) (k : String)
    (vs : List NPath) (h : lookupGroup l k = some vs) : (k, vs) ∈ l := by
  rcases lookupGroup_some_split l k vs h with ⟨pre, post, heq, -⟩
  rw [heq]
  simp

theorem mem_lookupGroup_isSome (l : List (String × List NPath)) (k : String)
    (vs : List NPath) (h : (k, vs) ∈ l) : (lookupGroup l k).isSome = true := by
  induction l with
  | nil => cases h
  | cons e t ih =>
    unfold lookupGroup
    by_cases he : e.1 = k
    · rw [if_pos he]; rfl
    · rw [if_neg he]
      rcases List.mem_cons.mp h with rfl | h2
      · exact absurd rfl he
      · exact ih h2

/-- Characterization of the needs-copy set computed by `show_phase1`: a
season identifier is flagged iff one of its videos ends the per-file phase
in `skipped_moved` or `kept_original_moved`. -/
theorem phase1_flag_iff (cfg : Config) (ora : NPath → Oracle) (st : Store) (fs : FS)
    (mapping : List (String × List NPath)) (droot oroot : List String)
    (hkeys : (mapping.map Prod.fst).Nodup)
    (hdisj : ∀ e1 ∈ mapping, ∀ e2 ∈ mapping, e1.1 ≠ e2.1 → ∀ v ∈ e1.2, v ∉ e2.2)
    (hgnodup : ∀ e ∈ mapping, e.2.Nodup)
    (sk : String) (vs : List NPath) (hlk : lookupGroup mapping sk = some vs) :
    sk ∈ (show_phase1 cfg ora st fs mapping droot oroot).2.2 ↔
      ∃ v ∈ vs,
        trigStatus (status_of (show_phase1 cfg ora st fs mapping droot oroot).1 v) = true := by
  have hmemsk : (sk, vs) ∈ mapping := lookupGroup_some_mem _ _ _ hlk
  rw [show_phase1_eq]
  by_cases hsk0 : sk = ""
  · subst hsk0
    simp only [hlk]
    set acc0 := process_group cfg ora droot oroot ("") (st, fs, []) vs with hacc0
    have hstable : ("" ∈ (phase1_fold cfg ora droot oroot mapping acc0).2.2 ↔
        "" ∈ acc0.2.2) := by
      constructor
      · intro h
        rcases fold_flags_bound cfg ora droot oroot mapping acc0 ("") h with h2 | ⟨e, _, hne, h0⟩
        · exact h2
        · exact absurd h0.symm hne
      · exact fold_flags_mono cfg ora droot oroot mapping acc0 ("")
    have hframe : ∀ v ∈ vs,
        status_of (phase1_fold cfg ora droot oroot mapping acc0).1 v = status_of acc0.1 v := by
      intro v hv
      apply fold_status_frame
      intro e he hne
      exact hdisj ("", vs) hmemsk e he (fun h => hne h.symm) v hv
    have hgrp := group_flag_iff cfg ora droot oroot ("") vs (st, fs, []) (hgnodup _ hmemsk)
    rw [hstable, hgrp]
    simp only [List.not_mem_nil, false_or]
    constructor
    · rintro ⟨v, hv, ht⟩
      exact ⟨v, hv, by rw [hframe v hv]; exact ht⟩
    · rintro ⟨v, hv, ht⟩
      exact ⟨v, hv, by rw [← hframe v hv]; exact ht⟩
  · rcases lookupGroup_some_split mapping sk vs hlk with ⟨pre, post, hmapeq, hpre⟩
    have hpost : ∀ e ∈ post, e.1 ≠ sk := by
      intro e he hesk
      have hkeq : mapping.map Prod.fst = pre.map Prod.fst ++ sk :: post.map Prod.fst := by
        rw [hmapeq]
        simp
      rw [hkeq] at hkeys
      have hsub : (sk :: post.map Prod.fst).Sublist
          (pre.map Prod.fst ++ sk :: post.map Prod.fst) := List.sublist_append_right _ _
      have h3 : (sk :: post.map Prod.fst).Nodup := hkeys.sublist hsub
      have h4 : sk ∉ post.map Prod.fst := (List.nodup_cons.mp h3).1
      exact h4 (List.mem_map.mpr ⟨e, he, hesk⟩)
    generalize hA : (match lookupGroup mapping ("") with
      | some vids => process_group cfg ora droot oroot ("") (st, fs, []) vids
      | none => ((st, fs, []) : Store × FS × List String)) = acc0
    have hacc0 : sk ∉ acc0.2.2 := by
      rw [← hA]
      cases hlk0 : lookupGroup mapping ("") with
      | none => simp
      | some vids0 =>
        simp only []
        intro hmem0
        rcases group_flags_bound cfg ora droot oroot ("") vids0 (st, fs, []) sk hmem0 with h | h
        · simp at h
        · exact hsk0 h
    rw [hmapeq, phase1_fold_append, phase1_fold_cons,
      if_neg (show ¬(((sk, vs) : String × List NPath).1 = "") from hsk0)]
    set accPre := phase1_fold cfg ora droot oroot pre acc0 with haccPre
    have hskpre : sk ∉ accPre.2.2 := by
      rw [haccPre, fold_flag_stable cfg ora droot oroot pre sk hpre acc0]
      exact hacc0
    set accSk := process_group cfg ora droot oroot ((sk, vs).1) accPre ((sk, vs).2) with haccSk
    have hstable2 : sk ∈ (phase1_fold cfg ora droot oroot post accSk).2.2 ↔
        sk ∈ accSk.2.2 := fold_flag_stable cfg ora droot oroot post sk hpost accSk
    have hframe2 : ∀ v ∈ vs,
        status_of (phase1_fold cfg ora droot oroot post accSk).1 v =
          status_of accSk.1 v := by
      intro v hv
      apply fold_status_frame
      intro e he hne
      have hemem : e ∈ mapping := by
        rw [hmapeq]
        exact List.mem_append_right _ (List.mem_cons_of_mem _ he)
      exact hdisj (sk, vs) hmemsk e hemem (fun h => hpost e he h.symm) v hv
    have hgrp := group_flag_iff cfg ora droot oroot sk vs accPre (hgnodup _ hmemsk)
    rw [hstable2]
    rw [show accSk = process_group cfg ora droot oroot sk accPre vs from rfl]
    rw [hgrp]
    have hskpre2 : (sk ∈ accPre.2.2) = False := by simp [hskpre]
    rw [hskpre2]
    simp only [false_or]
    constructor
    · rintro ⟨v, hv, ht⟩
      refine ⟨v, hv, ?_⟩
      rw [hframe2 v hv]
      exact ht
    · rintro ⟨v, hv, ht⟩
      refine ⟨v, hv, ?_⟩
      rw [hframe2 v hv] at ht
      exact ht

/-- Every flagged identifier names a real group of the grouping. -/
theorem phase1_flags_sub (cfg : Config) (ora : NPath → Oracle) (st : Store) (fs : FS)
    (mapping : List (String × List NPath)) (droot oroot : List String) :
    ∀ x ∈ (show_phase1 cfg ora st fs mapping droot oroot).2.2,
      (lookupGroup mapping x).isSome = true := by
  intro x hx
  rw [show_phase1_eq] at hx
  rcases fold_flags_bound cfg ora droot oroot mapping _ x hx with h | ⟨e, he, _, hxe⟩
  · cases hlk0 : lookupGroup mapping ("") with
    | none =>
      rw [hlk0] at h
      simp at h
    | some vids0 =>
      rw [hlk0] at h
      rcases group_flags_bound cfg ora droot oroot ("") vids0 (st, fs, []) x h with h2 | h2
      · simp at h2
      · rw [h2, hlk0]
        rfl
  · rw [hxe]
    exact mem_lookupGroup_isSome mapping e.1 e.2 he

-- ---------- C4: structure of the show grouping ----------

theorem filesDirectlyIn_shape (fs : FS) (d : List String) (p : NPath)
    (h : p ∈ filesDirectlyIn fs d) : p.dir = d ∧ isVideoFile p = true := by
  unfold filesDirectlyIn at h
  rcases List.mem_map.mp h with ⟨e, he, rfl⟩
  have h2 := (List.mem_filter.mp he).2
  simp only [Bool.and_eq_true, decide_eq_true_eq] at h2
  exact h2

theorem videosUnder_shape (fs : FS) (d : List String) (p : NPath)
    (h : p ∈ videosUnder fs d) : d <+: p.dir ∧ isVideoFile p = true := by
  unfold videosUnder at h
  rcases List.mem_map.mp h with ⟨e, he, rfl⟩
  have h2 := (List.mem_filter.mp he).2
  simp only [Bool.and_eq_true] at h2
  exact ⟨List.isPrefixOf_iff_prefix.mp h2.1, h2.2⟩

theorem nodup_filter_map_fst (fs : FS) (g : NPath × Nat → Bool)
    (hnodup : (fs.files.map Prod.fst).Nodup) :
    ((fs.files.filter g).map Prod.fst).Nodup := by
  have hsub : ((fs.files.filter g).map Prod.fst).Sublist (fs.files.map Prod.fst) :=
    (List.filter_sublist fs.files).map Prod.fst
  exact hnodup.sublist hsub

theorem filesDirectlyIn_nodup (fs : FS) (d : List String)
    (hnodup : (fs.files.map Prod.fst).Nodup) : (filesDirectlyIn fs d).Nodup :=
  nodup_filter_map_fst fs _ hnodup

theorem videosUnder_nodup (fs : FS) (d : List String)
    (hnodup : (fs.files.map Prod.fst).Nodup) : (videosUnder fs d).Nodup :=
  nodup_filter_map_fst fs _ hnodup

/-- Every entry of the grouping is either the direct-files entry or a season
entry. -/
theorem collect_entry_shape (fs : FS) (top : List String) (e : String × List NPath)
    (he : e ∈ collect_videos_two_depth fs top) :
    (e.1 = "" ∧ e.2 = filesDirectlyIn fs top) ∨
    (e.1 ∈ immediateSubdirs fs top ∧ e.2 = videosUnder fs (top ++ [e.1])) := by
  unfold collect_videos_two_depth at he
  rw [List.mem_append] at he
  cases he with
  | inl h =>
    by_cases hd : (filesDirectlyIn fs top).isEmpty
    · simp [hd] at h
    · simp only [hd, Bool.false_eq_true, if_false, ite_false, List.mem_singleton] at h
      subst h
      exact Or.inl ⟨rfl, rfl⟩
  | inr h =>
    rcases List.mem_filterMap.mp h with ⟨s, hs, hf⟩
    by_cases hv : (videosUnder fs (top ++ [s])).isEmpty
    · simp [hv] at hf
    · simp only [hv, Bool.false_eq_true, if_false, ite_false, Option.some.injEq] at hf
      subst hf
      exact Or.inr ⟨hs, rfl⟩

theorem collect_groups_nodup (fs : FS) (top : List String)
    (hnodup : (fs.files.map Prod.fst).Nodup) :
    ∀ e ∈ collect_videos_two_depth fs top, e.2.Nodup := by
  intro e he
  rcases collect_entry_shape fs top e he with ⟨-, h2⟩ | ⟨-, h2⟩
  · rw [h2]
    exact filesDirectlyIn_nodup fs top hnodup
  · rw [h2]
    exact videosUnder_nodup fs _ hnodup

/-- Videos of groups with different identifiers are distinct paths. -/
theorem collect_groups_disjoint (fs : FS) (top : List String) :
    ∀ e1 ∈ collect_videos_two_depth fs top, ∀ e2 ∈ collect_videos_two_depth fs top,
      e1.1 ≠ e2.1 → ∀ v ∈ e1.2, v ∉ e2.2 := by
  intro e1 he1 e2 he2 hne v hv1 hv2
  rcases collect_entry_shape fs top e1 he1 with ⟨hk1, hg1⟩ | ⟨hk1, hg1⟩ <;>
    rcases collect_entry_shape fs top e2 he2 with ⟨hk2, hg2⟩ | ⟨hk2, hg2⟩
  · exact hne (hk1.trans hk2.symm)
  · rw [hg1] at hv1
    rw [hg2] at hv2
    have h1 := (filesDirectlyIn_shape fs top v hv1).1
    have h2 := (videosUnder_shape fs _ v hv2).1
    have hlen := h2.length_le
    rw [h1] at hlen
    simp at hlen
  · rw [hg1] at hv1
    rw [hg2] at hv2
    have h1 := (videosUnder_shape fs _ v hv1).1
    have h2 := (filesDirectlyIn_shape fs top v hv2).1
    have hlen := h1.length_le
    rw [h2] at hlen
    simp at hlen
  · rw [hg1] at hv1
    rw [hg2] at hv2
    have h1 := (videosUnder_shape fs _ v hv1).1
    have h2 := (videosUnder_shape fs _ v hv2).1
    have hcmp := List.prefix_of_prefix_length_le h1 h2 (by simp)
    have heq : top ++ [e1.1] = top ++ [e2.1] :=
      List.IsPrefix.eq_of_length hcmp (by simp)
    have := List.append_cancel_left heq
    simp only [List.cons.injEq] at this
    exact hne this.1

/-- Keys produced by the seasonal `filterMap` form a sublist of the
subdirectory names. -/
theorem seasonal_keys_sublist (fs : FS) (top : List String) (l : List String) :
    (((l.filterMap (fun s =>
        if (videosUnder fs (top ++ [s])).isEmpty then none
        else some (s, videosUnder fs (top ++ [s])))).map Prod.fst)).Sublist l := by
  induction l with
  | nil => simp
  | cons s t ih =>
    simp only [List.filterMap_cons]
    split
    · exact ih.cons s
    · next heq =>
      by_cases hv : (videosUnder fs (top ++ [s])).isEmpty
      · rw [if_pos hv] at heq
        cases heq
      · rw [if_neg hv] at heq
        cases heq
        simpa using ih.cons₂ s

theorem immediateSubdirs_nodup (fs : FS) (top : List String) (hdirs : fs.dirs.Nodup) :
    (immediateSubdirs fs top).Nodup := by
  unfold immediateSubdirs
  apply List.Nodup.filterMap ?_ hdirs
  intro d1 d2 x h1 h2
  have hshape : ∀ d : List String,
      x ∈ (if d.take top.length = top then
        match d.drop top.length with
        | [x] => some x
        | _ => none
      else none) → d = top ++ [x] := by
    intro d hd
    by_cases ht : d.take top.length = top
    · rw [if_pos ht] at hd
      cases hdrop : d.drop top.length with
      | nil => rw [hdrop] at hd; cases hd
      | cons y ys =>
        cases ys with
        | nil =>
          rw [hdrop] at hd
          simp only [Option.mem_def, Option.some.injEq] at hd
          subst hd
          conv_lhs => rw [← List.take_append_drop top.length d]
          rw [ht, hdrop]
        | cons z zs => rw [hdrop] at hd; cases hd
    · rw [if_neg ht] at hd
      cases hd
  rw [hshape d1 h1, hshape d2 h2]

theorem collect_keys_nodup (fs : FS) (top : List String) (hdirs : fs.dirs.Nodup)
    (hne : ("" ∈ immediateSubdirs fs top) → False) :
    (((collect_videos_two_depth fs top).map Prod.fst)).Nodup := by
  unfold collect_videos_two_depth
  rw [List.map_append]
  have hseason : (((immediateSubdirs fs top).filterMap (fun s =>
      if (videosUnder fs (top ++ [s])).isEmpty then none
      else some (s, videosUnder fs (top ++ [s])))).map Prod.fst).Sublist
      (immediateSubdirs fs top) := seasonal_keys_sublist fs top _
  have hsn : (((immediateSubdirs fs top).filterMap (fun s =>
      if (videosUnder fs (top ++ [s])).isEmpty then none
      else some (s, videosUnder fs (top ++ [s])))).map Prod.fst).Nodup :=
    (immediateSubdirs_nodup fs top hdirs).sublist hseason
  apply List.Nodup.append
  · by_cases hd : (filesDirectlyIn fs top).isEmpty
    · simp [hd]
    · simp [hd]
  · exact hsn
  · intro x hx1 hx2
    by_cases hd : (filesDirectlyIn fs top).isEmpty
    · simp [hd] at hx1
    · simp only [hd, Bool.false_eq_true, if_false, ite_false, List.map_cons, List.map_nil,
        List.mem_singleton] at hx1
      subst hx1
      exact hne (hseason.subset hx2)

-- ---------- C4: the copy loop and the stamping pass ----------

theorem show_copy_loop_cons (cfg : Config) (topdir droot oroot : List String)
    (acc : Store × FS) (sk : String) (t : List String) :
    show_copy_loop cfg topdir droot oroot acc (sk :: t) =
      show_copy_loop cfg topdir droot oroot
        (if acc.2.dirExists (seasonSrcDir topdir sk) = true then
          (stamp_tree acc.1
            (copy_tree_safe cfg acc.2 (seasonSrcDir topdir sk)
              (seasonDestDir droot oroot topdir sk))
            (seasonSrcDir topdir sk) (seasonDestDir droot oroot topdir sk),
          copy_tree_safe cfg acc.2 (seasonSrcDir topdir sk)
            (seasonDestDir droot oroot topdir sk))
        else acc) t := rfl

/-- The per-entry update of the `copytree` merge (proof-level name for the
fold body of `FS.copyTree`). -/
def copyStep (srcD destD : List String) (acc : List (NPath × Nat)) (e : NPath × Nat) :
    List (NPath × Nat) :=
  if srcD.isPrefixOf e.1.dir then
    setKey acc { e.1 with dir := destD ++ e.1.dir.drop srcD.length } e.2
  else acc

theorem copyTree_files_eq (fs : FS) (srcD destD : List String) :
    (fs.copyTree srcD destD).files = fs.files.foldl (copyStep srcD destD) fs.files := rfl

theorem copyTree_dirs_eq (fs : FS) (srcD destD : List String) :
    (fs.copyTree srcD destD).dirs =
      if fs.dirs.contains destD then fs.dirs else destD :: fs.dirs := rfl

theorem lookupKey_setKey_isSome_mono {β : Type} (l : List (NPath × β)) (p q : NPath) (v : β)
    (h : (lookupKey l q).isSome = true) : (lookupKey (setKey l p v) q).isSome = true := by
  by_cases hq : q = p
  · subst hq
    rw [lookupKey_setKey_self]
    rfl
  · rw [lookupKey_setKey_ne _ _ _ _ hq]
    exact h

theorem foldl_copyStep_untouched (srcD destD : List String) (p : NPath)
    (hp : ¬ destD <+: p.dir) :
    ∀ (l acc : List (NPath × Nat)),
      lookupKey (l.foldl (copyStep srcD destD) acc) p = lookupKey acc p := by
  intro l
  induction l with
  | nil => intro acc; rfl
  | cons e t ih =>
    intro acc
    rw [List.foldl_cons, ih]
    unfold copyStep
    split
    · rw [lookupKey_setKey_ne]
      intro heq
      exact hp (heq ▸ ⟨e.1.dir.drop srcD.length, rfl⟩)
    · rfl

theorem foldl_copyStep_isSome_mono (srcD destD : List String) (q : NPath) :
    ∀ (l acc : List (NPath × Nat)), (lookupKey acc q).isSome = true →
      (lookupKey (l.foldl (copyStep srcD destD) acc) q).isSome = true := by
  intro l
  induction l with
  | nil => intro acc h; exact h
  | cons e t ih =>
    intro acc h
    rw [List.foldl_cons]
    apply ih
    unfold copyStep
    split
    · exact lookupKey_setKey_isSome_mono _ _ _ _ h
    · exact h

theorem foldl_copyStep_hit (srcD destD : List String) (p : NPath) (sz : Nat)
    (hpre : srcD.isPrefixOf p.dir = true) :
    ∀ (l acc : List (NPath × Nat)), (p, sz) ∈ l →
      (lookupKey (l.foldl (copyStep srcD destD) acc)
        { dir := destD ++ p.dir.drop srcD.length, stem := p.stem,
          suffix := p.suffix }).isSome = true := by
  intro l
  induction l with
  | nil => intro acc h; cases h
  | cons e t ih =>
    intro acc h
    rw [List.foldl_cons]
    rcases List.mem_cons.mp h with rfl | h2
    · apply foldl_copyStep_isSome_mono
      unfold copyStep
      rw [if_pos hpre]
      show (lookupKey (setKey acc
        { dir := destD ++ p.dir.drop srcD.length, stem := p.stem, suffix := p.suffix } sz)
        { dir := destD ++ p.dir.drop srcD.length, stem := p.stem, suffix := p.suffix }).isSome =
        true
      rw [lookupKey_setKey_self]
      rfl
    · exact ih _ h2

/-- The per-entry update of the stamping pass (fold body of `stamp_tree`). -/
def stampStep (srcD destD : List String) (acc : Store) (e : NPath × Nat) : Store :=
  if srcD.isPrefixOf e.1.dir && isVideoFile e.1 then
    mark acc e.1 Status.copied_season ("season copied to " ++ renderDir destD)
  else acc

theorem stamp_tree_eq (st : Store) (fs : FS) (srcD destD : List String) :
    stamp_tree st fs srcD destD = fs.files.foldl (stampStep srcD destD) st := rfl

theorem stamp_preserves_cs (srcD destD : List String) (p : NPath) :
    ∀ (l : List (NPath × Nat)) (st : Store), status_of st p = some Status.copied_season →
      status_of (l.foldl (stampStep srcD destD) st) p = some Status.copied_season := by
  intro l
  induction l with
  | nil => intro st h; exact h
  | cons e t ih =>
    intro st h
    rw [List.foldl_cons]
    apply ih
    unfold stampStep
    split
    · by_cases he : e.1 = p
      · rw [← he] at h ⊢
        exact status_of_mark_self _ _ _ _
      · rw [status_of_mark_ne _ _ _ _ _ (fun hh => he hh.symm)]
        exact h
    · exact h

theorem stamp_hits (srcD destD : List String) (p : NPath) (v : Nat)
    (hpre : srcD.isPrefixOf p.dir = true) (hvid : isVideoFile p = true) :
    ∀ (l : List (NPath × Nat)) (st : Store), (p, v) ∈ l →
      status_of (l.foldl (stampStep srcD destD) st) p = some Status.copied_season := by
  intro l
  induction l with
  | nil => intro st h; cases h
  | cons e t ih =>
    intro st h
    rw [List.foldl_cons]
    rcases List.mem_cons.mp h with rfl | h2
    · apply stamp_preserves_cs
      unfold stampStep
      rw [if_pos (by rw [hpre, hvid]; rfl)]
      exact status_of_mark_self _ _ _ _
    · exact ih _ h2

theorem loop_preserves_cs (cfg : Config) (topdir droot oroot : List String) (p : NPath) :
    ∀ (needs : List String) (acc : Store × FS),
      status_of acc.1 p = some Status.copied_season →
      status_of (show_copy_loop cfg topdir droot oroot acc needs).1 p =
        some Status.copied_season := by
  intro needs
  induction needs with
  | nil => intro acc h; exact h
  | cons sk t ih =>
    intro acc h
    rw [show_copy_loop_cons]
    apply ih
    split
    · rw [stamp_tree_eq]
      exact stamp_preserves_cs _ _ p _ acc.1 h
    · exact h

theorem no_dest_prefix (droot oroot topdir : List String) (sk : String) (p : NPath)
    (hd : droot <+: p.dir) (h1 : ¬ droot <+: oroot) (h2 : ¬ oroot <+: droot) :
    ¬ (seasonDestDir droot oroot topdir sk) <+: p.dir := by
  intro h
  have hor : oroot <+: seasonDestDir droot oroot topdir sk := by
    unfold seasonDestDir reroot
    split
    · exact ⟨_, rfl⟩
    · exact ⟨topdir.drop droot.length ++ [sk], by rw [← List.append_assoc]⟩
  have hop : oroot <+: p.dir := hor.trans h
  rcases List.prefix_or_prefix_of_prefix hd hop with hc | hc
  · exact h1 hc
  · exact h2 hc

theorem copy_tree_safe_statF_untouched (cfg : Config) (fs : FS) (srcD destD : List String)
    (p : NPath) (hp : ¬ destD <+: p.dir) :
    (copy_tree_safe cfg fs srcD destD).statF p = fs.statF p := by
  unfold copy_tree_safe
  split
  · rfl
  · show ((fs.ensureDir destD).copyTree srcD destD).statF p = fs.statF p
    unfold FS.statF
    rw [copyTree_files_eq, foldl_copyStep_untouched srcD destD p hp]
    rfl

theorem copy_tree_safe_isSome_mono (cfg : Config) (fs : FS) (srcD destD : List String)
    (q : NPath) (h : (fs.statF q).isSome = true) :
    ((copy_tree_safe cfg fs srcD destD).statF q).isSome = true := by
  unfold copy_tree_safe
  split
  · exact h
  · show (((fs.ensureDir destD).copyTree srcD destD).statF q).isSome = true
    unfold FS.statF
    rw [copyTree_files_eq]
    exact foldl_copyStep_isSome_mono srcD destD q _ _ h

theorem copy_tree_safe_dirs_mono (cfg : Config) (fs : FS) (srcD destD : List String)
    (d : List String) (h : fs.dirs.contains d = true) :
    ((copy_tree_safe cfg fs srcD destD).dirs).contains d = true := by
  have hb := contains_ensureDir fs destD d h
  unfold copy_tree_safe
  split
  · exact hb
  · show (((fs.ensureDir destD).copyTree srcD destD).dirs).contains d = true
    rw [copyTree_dirs_eq]
    split
    · exact hb
    · simp only [List.contains_cons]
      rw [hb]
      simp

theorem loop_statF_untouched (cfg : Config) (topdir droot oroot : List String) (p : NPath)
    (hp : ∀ sk : String, ¬ (seasonDestDir droot oroot topdir sk) <+: p.dir) :
    ∀ (needs : List String) (acc : Store × FS),
      ((show_copy_loop cfg topdir droot oroot acc needs).2).statF p = acc.2.statF p := by
  intro needs
  induction needs with
  | nil => intro acc; rfl
  | cons sk t ih =>
    intro acc
    rw [show_copy_loop_cons, ih]
    split
    · exact copy_tree_safe_statF_untouched cfg acc.2 _ _ p (hp sk)
    · rfl

theorem loop_isSome_mono (cfg : Config) (topdir droot oroot : List String) (q : NPath) :
    ∀ (needs : List String) (acc : Store × FS), ((acc.2).statF q).isSome = true →
      (((show_copy_loop cfg topdir droot oroot acc needs).2).statF q).isSome = true := by
  intro needs
  induction needs with
  | nil => intro acc h; exact h
  | cons sk t ih =>
    intro acc h
    rw [show_copy_loop_cons]
    apply ih
    split
    · exact copy_tree_safe_isSome_mono cfg acc.2 _ _ q h
    · exact h

theorem loop_dirs_mono (cfg : Config) (topdir droot oroot : List String) (d : List String) :
    ∀ (needs : List String) (acc : Store × FS), ((acc.2).dirs).contains d = true →
      (((show_copy_loop cfg topdir droot oroot acc needs).2).dirs).contains d = true := by
  intro needs
  induction needs with
  | nil => intro acc h; exact h
  | cons sk t ih =>
    intro acc h
    rw [show_copy_loop_cons]
    apply ih
    split
    · exact copy_tree_safe_dirs_mono cfg acc.2 _ _ d h
    · exact h

theorem poster_statF_ne (cfg : Config) (poster : Option Nat) (fs : FS) (nm : String)
    (outRoot : List String) (p : NPath) (hp : p.dir ≠ outRoot) :
    (fetch_and_save_show_poster cfg poster fs nm outRoot).statF p = fs.statF p := by
  cases poster with
  | none => rfl
  | some sz =>
    unfold fetch_and_save_show_poster
    by_cases hdry : cfg.dryRun = true
    · simp only [hdry, ite_true]
    · simp only [hdry, Bool.false_eq_true, if_false, ite_false]
      rw [statF_setFile_ne _ _ _ _
        (fun h => hp (show p.dir = outRoot from congrArg NPath.dir h)), statF_ensureDir]

theorem statF_setFile_isSome_mono (fs : FS) (p q : NPath) (sz : Nat)
    (h : (fs.statF q).isSome = true) : ((fs.setFile p sz).statF q).isSome = true := by
  unfold FS.setFile FS.statF
  exact lookupKey_setKey_isSome_mono _ _ _ _ h

theorem poster_isSome_mono (cfg : Config) (poster : Option Nat) (fs : FS) (nm : String)
    (outRoot : List String) (q : NPath) (h : (fs.statF q).isSome = true) :
    ((fetch_and_save_show_poster cfg poster fs nm outRoot).statF q).isSome = true := by
  cases poster with
  | none => exact h
  | some sz =>
    unfold fetch_and_save_show_poster
    by_cases hdry : cfg.dryRun = true
    · simp only [hdry, ite_true]
      exact h
    · simp only [hdry, Bool.false_eq_true, if_false, ite_false]
      exact statF_setFile_isSome_mono _ _ _ _ h

theorem group_dirs_mono (cfg : Config) (ora : NPath → Oracle) (droot oroot : List String)
    (sk : String) (vids : List NPath) :
    ∀ (acc : Store × FS × List String) (d : List String), acc.2.1.dirs.contains d = true →
      ((process_group cfg ora droot oroot sk acc vids).2.1).dirs.contains d = true := by
  induction vids with
  | nil => intro acc d h; exact h
  | cons w t ih =>
    intro acc d h
    rw [process_group_cons]
    exact ih _ d (pm_dirs_mono cfg ora acc.1 acc.2.1 w droot oroot d h)

theorem phase1_fold_dirs_mono (cfg : Config) (ora : NPath → Oracle)
    (droot oroot : List String) (l : List (String × List NPath)) :
    ∀ (acc : Store × FS × List String) (d : List String), acc.2.1.dirs.contains d = true →
      ((phase1_fold cfg ora droot oroot l acc).2.1).dirs.contains d = true := by
  induction l with
  | nil => intro acc d h; exact h
  | cons e t ih =>
    intro acc d h
    rw [phase1_fold_cons]
    apply ih
    by_cases he : e.1 = ""
    · rw [if_pos he]; exact h
    · rw [if_neg he]
      exact group_dirs_mono cfg ora droot oroot e.1 e.2 acc d h

theorem show_phase1_dirs_mono (cfg : Config) (ora : NPath → Oracle) (st : Store) (fs : FS)
    (mapping : List (String × List NPath)) (droot oroot : List String) (d : List String)
    (h : fs.dirs.contains d = true) :
    ((show_phase1 cfg ora st fs mapping droot oroot).2.1).dirs.contains d = true := by
  rw [show_phase1_eq]
  apply phase1_fold_dirs_mono
  cases hlk : lookupGroup mapping ("") with
  | none => exact h
  | some vids0 => exact group_dirs_mono cfg ora droot oroot ("") vids0 (st, fs, []) d h

theorem contains_of_mem_dirs (l : List (List String)) (a : List String) (h : a ∈ l) :
    l.contains a = true := by
  induction l with
  | nil => cases h
  | cons e t ih =>
    simp only [List.contains_cons]
    rcases List.mem_cons.mp h with rfl | h2
    · simp
    · rw [ih h2]
      simp

theorem mem_immediateSubdirs (fs : FS) (top : List String) (s : String)
    (h : s ∈ immediateSubdirs fs top) : (top ++ [s]) ∈ fs.dirs := by
  unfold immediateSubdirs at h
  rcases List.mem_filterMap.mp h with ⟨d, hd, hf⟩
  by_cases ht : d.take top.length = top
  · rw [if_pos ht] at hf
    cases hdrop : d.drop top.length with
    | nil => rw [hdrop] at hf; cases hf
    | cons y ys =>
      cases ys with
      | nil =>
        rw [hdrop] at hf
        simp only [Option.some.injEq] at hf
        subst hf
        have hd2 : d = top ++ [y] := by
          conv_lhs => rw [← List.take_append_drop top.length d]
          rw [ht, hdrop]
        rw [← hd2]
        exact hd
      | cons z zs => rw [hdrop] at hf; cases hf
  · rw [if_neg ht] at hf
    cases hf

theorem show_copy_loop_append (cfg : Config) (topdir droot oroot : List String)
    (l1 l2 : List String) (acc : Store × FS) :
    show_copy_loop cfg topdir droot oroot acc (l1 ++ l2) =
      show_copy_loop cfg topdir droot oroot (show_copy_loop cfg topdir droot oroot acc l1) l2 := by
  unfold show_copy_loop
  rw [List.foldl_append]

theorem lookupKey_some_mem {β : Type} (l : List (NPath × β)) (p : NPath) (v : β)
    (h : lookupKey l p = some v) : (p, v) ∈ l := by
  induction l with
  | nil => cases h
  | cons e t ih =>
    unfold lookupKey at h
    by_cases he : e.1 = p
    · rw [if_pos he] at h
      simp only [Option.some.injEq] at h
      have he2 : e = (p, v) := by
        cases e
        simp_all
      rw [← he2]
      exact List.mem_cons_self e t
    · rw [if_neg he] at h
      exact List.mem_cons_of_mem e (ih h)

theorem topdir_prefix_srcDir (topdir : List String) (sk : String) :
    topdir <+: seasonSrcDir topdir sk := by
  unfold seasonSrcDir
  split
  · exact List.prefix_refl topdir
  · exact ⟨[sk], rfl⟩

/-- C4: for every show grouping, the Consolidator's needs-copy set holds a
season identifier iff one of that season's videos ended the per-file phase
in `skipped_moved` or `kept_original_moved` (the empty identifier denoting
the show's top directory itself); every flagged identifier names a real
group; and for every flagged season, every file still present under its
source subtree is copied to the mirrored destination, and every such file
that is a video is stamped `copied_season`, whatever status it held. -/
theorem C4_season_consolidation (cfg : Config) (ora : NPath → Oracle) (poster : Option Nat)
    (st : Store) (fs : FS) (topdir droot oroot : List String)
    (hdry : cfg.dryRun = false)
    (hnodup : (fs.files.map Prod.fst).Nodup)
    (hdirs : fs.dirs.Nodup)
    (hno_empty : ("" ∈ immediateSubdirs fs topdir) → False)
    (htop : fs.dirs.contains topdir = true)
    (htopd : droot <+: topdir)
    (hr1 : ¬ droot <+: oroot)
    (hr2 : ¬ oroot <+: droot) :
    (seasonSrcDir topdir "" = topdir) ∧
    (∀ (sk : String) (vs : List NPath),
      lookupGroup (collect_videos_two_depth fs topdir) sk = some vs →
      (sk ∈ (show_phase1 cfg ora st fs (collect_videos_two_depth fs topdir) droot oroot).2.2 ↔
        ∃ v ∈ vs, trigStatus (status_of
          (show_phase1 cfg ora st fs (collect_videos_two_depth fs topdir) droot oroot).1 v) =
          true)) ∧
    (∀ sk ∈ (show_phase1 cfg ora st fs (collect_videos_two_depth fs topdir) droot oroot).2.2,
      (lookupGroup (collect_videos_two_depth fs topdir) sk).isSome = true) ∧
    (∀ sk ∈ (show_phase1 cfg ora st fs (collect_videos_two_depth fs topdir) droot oroot).2.2,
      ∀ p : NPath,
        seasonSrcDir topdir sk <+: p.dir →
        (((show_phase1 cfg ora st fs (collect_videos_two_depth fs topdir) droot
            oroot).2.1).statF p).isSome = true →
        ((((process_show_topdir cfg ora poster st fs topdir droot oroot).2).statF
            { dir := seasonDestDir droot oroot topdir sk ++
                p.dir.drop (seasonSrcDir topdir sk).length,
              stem := p.stem, suffix := p.suffix }).isSome = true ∧
          (isVideoFile p = true →
            status_of (process_show_topdir cfg ora poster st fs topdir droot oroot).1 p =
              some Status.copied_season))) := by
  refine ⟨rfl,
    fun sk vs hlk => phase1_flag_iff cfg ora st fs _ droot oroot
      (collect_keys_nodup fs topdir hdirs hno_empty)
      (collect_groups_disjoint fs topdir)
      (collect_groups_nodup fs topdir hnodup) sk vs hlk,
    phase1_flags_sub cfg ora st fs _ droot oroot, ?_⟩
  intro sk hsk p hpre hsome
  -- the grouping is non-empty, since a season was flagged
  have hlkS := phase1_flags_sub cfg ora st fs _ droot oroot sk hsk
  obtain ⟨vs, hlk⟩ : ∃ vs, lookupGroup (collect_videos_two_depth fs topdir) sk = some vs := by
    cases h : lookupGroup (collect_videos_two_depth fs topdir) sk with
    | none => rw [h] at hlkS; cases hlkS
    | some vs => exact ⟨vs, rfl⟩
  have hmemsk := lookupGroup_some_mem _ _ _ hlk
  have hmapne : ((collect_videos_two_depth fs topdir).isEmpty) = false := by
    cases hmap : collect_videos_two_depth fs topdir with
    | nil => rw [hmap] at hmemsk; cases hmemsk
    | cons a b => rfl
  -- the flagged season's source directory is a known directory of fs
  have hsrc_dirs : fs.dirs.contains (seasonSrcDir topdir sk) = true := by
    rcases collect_entry_shape fs topdir (sk, vs) hmemsk with ⟨hk, -⟩ | ⟨hk, -⟩
    · simp only at hk
      subst hk
      exact htop
    · simp only at hk
      have hne : sk ≠ "" := fun h => hno_empty (h ▸ hk)
      unfold seasonSrcDir
      rw [if_neg hne]
      exact contains_of_mem_dirs _ _ (mem_immediateSubdirs fs topdir sk hk)
  -- p lives under the downloads root
  have hdp : droot <+: p.dir := htopd.trans ((topdir_prefix_srcDir topdir sk).trans hpre)
  have hpt : ∀ sk' : String, ¬ (seasonDestDir droot oroot topdir sk') <+: p.dir :=
    fun sk' => no_dest_prefix droot oroot topdir sk' p hdp hr1 hr2
  -- abbreviations for the phase-1 result and the copy loop
  set r := show_phase1 cfg ora st fs (collect_videos_two_depth fs topdir) droot oroot with hr
  set r2 := show_copy_loop cfg topdir droot oroot (r.1, r.2.1) r.2.2 with hr2
  -- split the needs list at the flagged season
  rcases List.append_of_mem hsk with ⟨preN, postN, hneeds⟩
  have hsplit : r2 = show_copy_loop cfg topdir droot oroot
      (show_copy_loop cfg topdir droot oroot (r.1, r.2.1) preN) (sk :: postN) := by
    rw [hr2, hneeds, show_copy_loop_append]
  set accPre := show_copy_loop cfg topdir droot oroot (r.1, r.2.1) preN with haccPre
  -- at the flagged season's turn the directory check passes
  have hdirsPre : accPre.2.dirExists (seasonSrcDir topdir sk) = true := by
    rw [haccPre]
    apply loop_dirs_mono
    exact show_phase1_dirs_mono cfg ora st fs _ droot oroot _ hsrc_dirs
  -- p's presence survives to the flagged season's turn
  have hstatPre : accPre.2.statF p = r.2.1.statF p := by
    rw [haccPre]
    exact loop_statF_untouched cfg topdir droot oroot p hpt preN (r.1, r.2.1)
  obtain ⟨sz, hsz⟩ : ∃ sz, r.2.1.statF p = some sz := by
    cases h : r.2.1.statF p with
    | none => rw [h] at hsome; cases hsome
    | some sz => exact ⟨sz, rfl⟩
  set fs1 := copy_tree_safe cfg accPre.2 (seasonSrcDir topdir sk)
      (seasonDestDir droot oroot topdir sk) with hfs1
  set stageSt := stamp_tree accPre.1 fs1 (seasonSrcDir topdir sk)
      (seasonDestDir droot oroot topdir sk) with hstageSt
  have hstage : r2 = show_copy_loop cfg topdir droot oroot (stageSt, fs1) postN := by
    rw [hsplit, show_copy_loop_cons, if_pos hdirsPre]
  -- the copy writes the mirror of p
  have hmirror1 : ((fs1).statF
      { dir := seasonDestDir droot oroot topdir sk ++
          p.dir.drop (seasonSrcDir topdir sk).length,
        stem := p.stem, suffix := p.suffix }).isSome = true := by
    rw [hfs1]
    unfold copy_tree_safe
    rw [if_neg (by rw [hdry]; exact Bool.false_ne_true)]
    show (((accPre.2.ensureDir (seasonDestDir droot oroot topdir sk)).copyTree
      (seasonSrcDir topdir sk) (seasonDestDir droot oroot topdir sk)).statF _).isSome = true
    unfold FS.statF
    rw [copyTree_files_eq]
    apply foldl_copyStep_hit _ _ p sz (List.isPrefixOf_iff_prefix.mpr hpre)
    apply lookupKey_some_mem
    show accPre.2.statF p = some sz
    rw [hstatPre]
    exact hsz
  -- the stamping pass marks p when it is a video
  have hstamp : isVideoFile p = true → status_of stageSt p = some Status.copied_season := by
    intro hvid
    rw [hstageSt, stamp_tree_eq]
    apply stamp_hits _ _ p sz (List.isPrefixOf_iff_prefix.mpr hpre) hvid
    apply lookupKey_some_mem
    show fs1.statF p = some sz
    rw [hfs1, copy_tree_safe_statF_untouched cfg accPre.2 _ _ p (hpt sk), hstatPre]
    exact hsz
  -- push both facts through the rest of the loop and the poster step
  have hmirror2 : ((r2.2).statF
      { dir := seasonDestDir droot oroot topdir sk ++
          p.dir.drop (seasonSrcDir topdir sk).length,
        stem := p.stem, suffix := p.suffix }).isSome = true := by
    rw [hstage]
    exact loop_isSome_mono cfg topdir droot oroot _ postN (stageSt, fs1) hmirror1
  have hstamp2 : isVideoFile p = true →
      status_of r2.1 p = some Status.copied_season := by
    intro hvid
    rw [hstage]
    exact loop_preserves_cs cfg topdir droot oroot p postN (stageSt, fs1) (hstamp hvid)
  have hpst : process_show_topdir cfg ora poster st fs topdir droot oroot =
      (if (!cfg.no_posters && !cfg.posters_only) = true then
        (r2.1, fetch_and_save_show_poster cfg poster r2.2 (topdir.getLastD ("")) oroot)
      else r2) := by
    unfold process_show_topdir
    rw [hr2, hr]
    simp only [hmapne, Bool.false_eq_true, if_false, ite_false]
  rw [hpst]
  split
  · exact ⟨poster_isSome_mono cfg poster r2.2 _ oroot _ hmirror2, hstamp2⟩
  · exact ⟨hmirror2, hstamp2⟩

/-- A show directory: one season holding a probe-skippable episode, a
failing episode, and a companion subtitle file. -/
def exSeasonEp1 : NPath := { dir := ["dl", "ShowA", "Season 1"], stem := "ep1", suffix := ".mkv" }

def exSeasonEp2 : NPath := { dir := ["dl", "ShowA", "Season 1"], stem := "ep2", suffix := ".avi" }

def exSeasonSrt : NPath := { dir := ["dl", "ShowA", "Season 1"], stem := "ep1", suffix := ".srt" }

def exSeasonFS : FS :=
  { files := [(exSeasonEp1, 500), (exSeasonEp2, 400), (exSeasonSrt, 2)],
    dirs := [["dl", "ShowA"], ["dl", "ShowA", "Season 1"]] }

/-- ep1 probe-skips (triggering the season copy); ep2's transcode fails. -/
def exSeasonOra : NPath → Oracle := fun p =>
  if p = exSeasonEp2 then
    { s1 := some 400, s2 := some 400, probe := none, hbRc := 1, hbOut := none, userYes := true }
  else
    { s1 := some 500, s2 := some 500, probe := some exProbe720, hbRc := 0, hbOut := some 300,
      userYes := true }

/-- Witness for the consolidation theorem: in the concrete show, the failing
episode left in place is re-stamped `copied_season`, and the companion
subtitle file is copied to the mirrored season directory. -/
theorem C4_season_consolidation_witness :
    status_of (process_show_topdir exCfg exSeasonOra none [] exSeasonFS ["dl", "ShowA"]
      ["dl"] ["out"]).1 exSeasonEp2 = some Status.copied_season ∧
    (((process_show_topdir exCfg exSeasonOra none [] exSeasonFS ["dl", "ShowA"]
        ["dl"] ["out"]).2).statF
      { dir := seasonDestDir ["dl"] ["out"] ["dl", "ShowA"] ("Season 1") ++
          exSeasonSrt.dir.drop (seasonSrcDir ["dl", "ShowA"] ("Season 1")).length,
        stem := exSeasonSrt.stem, suffix := exSeasonSrt.suffix }).isSome = true := by
  have H := C4_season_consolidation exCfg exSeasonOra none [] exSeasonFS ["dl", "ShowA"]
    ["dl"] ["out"] (by decide) (by decide) (by decide) (by decide) (by decide) (by decide)
    (by decide) (by decide)
  exact ⟨(H.2.2.2 ("Season 1") (by decide) exSeasonEp2 (by decide) (by decide)).2 (by decide),
    (H.2.2.2 ("Season 1") (by decide) exSeasonSrt (by decide) (by decide)).1⟩

end Nomad
